import Mathlib

/-!
# Verification of the melange SBOM generation engine (pkg/sbom/implementation.go)

This file is a shallow embedding, in Lean 4, of the SBOM generation engine of
melange (`pkg/sbom/implementation.go`): the entity model (packages, files,
relationships), the verification-code computation, the recursive lowering of the
entity graph into an SPDX document (`addPackage` / `addFile` /
`buildDocumentSPDX`), the build-environment SBOM merge (`ParseBuildSBOM`) and
the write stage (`WriteSBOM`), together with theorems settling the behavioural
claims about that code.

Modelling conventions:
* Go machine integers are `Nat` with explicit reduction `% 2^32` where 32-bit
  overflow matters (the SHA-1 compression function).
* Go maps `map[string]string` are association lists `List (String × String)`;
  the code only ever iterates them over a sorted list of their keys, so
  insertion order is irrelevant wherever they are consumed.
* Fallible Go functions returning `error` become `Except String _`.
* Filesystem and environment effects are passed in explicitly: the contents of
  the build-environment SBOM file arrive as an already-read
  `Except String spdx.Document`, the `SOURCE_DATE_EPOCH` variable as an
  `Option String`, and the outcome of `os.Create` / `Encoder.Encode` as
  booleans, with the resulting on-disk state tracked by `FileState`.
* The struct types `Spec`, `bom`, `pkg`, `file`, `relationship` and the `ID()`
  methods live in `pkg/sbom/sbom.go`, which is not part of the source under
  study; they are modelled from the spec (see the doc comments on each).
-/

namespace Melange

/-! ## 32-bit arithmetic on `Nat`

Go's `crypto/sha1` works on `uint32` values.  We model a 32-bit word as a `Nat`
reduced modulo `2^32`, with fuel-indexed structural bitwise operations so that
every definition evaluates inside the kernel. -/

/-- Reduce a natural number to a 32-bit word. -/
def w32 (n : Nat) : Nat := n % 2 ^ 32

/-- Bitwise AND of the low `fuel` bits. -/
def bitAndAux : Nat → Nat → Nat → Nat
  | 0, _, _ => 0
  | fuel + 1, a, b => a % 2 * (b % 2) + 2 * bitAndAux fuel (a / 2) (b / 2)

/-- Bitwise XOR of the low `fuel` bits. -/
def bitXorAux : Nat → Nat → Nat → Nat
  | 0, _, _ => 0
  | fuel + 1, a, b =>
    (if a % 2 = b % 2 then 0 else 1) + 2 * bitXorAux fuel (a / 2) (b / 2)

/-- Bitwise OR of the low `fuel` bits. -/
def bitOrAux : Nat → Nat → Nat → Nat
  | 0, _, _ => 0
  | fuel + 1, a, b =>
    (if a % 2 = 1 ∨ b % 2 = 1 then 1 else 0) + 2 * bitOrAux fuel (a / 2) (b / 2)

/-- 32-bit bitwise AND. -/
def and32 (a b : Nat) : Nat := bitAndAux 32 a b

/-- 32-bit bitwise XOR. -/
def xor32 (a b : Nat) : Nat := bitXorAux 32 a b

/-- 32-bit bitwise OR. -/
def or32 (a b : Nat) : Nat := bitOrAux 32 a b

/-- 32-bit bitwise complement (operands are first reduced to 32 bits). -/
def not32 (a : Nat) : Nat := 2 ^ 32 - 1 - w32 a

/-- 32-bit modular addition. -/
def add32 (a b : Nat) : Nat := (a + b) % 2 ^ 32

/-- Rotate a 32-bit word left by `s` bits (`0 < s < 32`). -/
def rotl32 (s a : Nat) : Nat := (w32 a * 2 ^ s + w32 a / 2 ^ (32 - s)) % 2 ^ 32

/-! ## SHA-1 (Go `crypto/sha1`)

A byte-level implementation of SHA-1 used by `computeVerificationCode`
(`implementation.go:231`).  Messages are lists of bytes (`Nat < 256`). -/

/-- The 8-byte big-endian encoding of a 64-bit length. -/
def bigEndian8 (n : Nat) : List Nat :=
  [n / 2 ^ 56 % 256, n / 2 ^ 48 % 256, n / 2 ^ 40 % 256, n / 2 ^ 32 % 256,
   n / 2 ^ 24 % 256, n / 2 ^ 16 % 256, n / 2 ^ 8 % 256, n % 256]

/-- The 4-byte big-endian encoding of a 32-bit word. -/
def bigEndian4 (n : Nat) : List Nat :=
  [n / 2 ^ 24 % 256, n / 2 ^ 16 % 256, n / 2 ^ 8 % 256, n % 256]

/-- SHA-1 padding: append `0x80`, zero bytes up to 56 mod 64, then the
bit length as a 64-bit big-endian integer. -/
def sha1Pad (msg : List Nat) : List Nat :=
  msg ++ [0x80] ++ List.replicate ((119 - msg.length % 64) % 64) 0 ++
    bigEndian8 (8 * msg.length)

/-- Group bytes into big-endian 32-bit words (drops a trailing short group;
blocks always hold a multiple of four bytes). -/
def bytesToWords : List Nat → List Nat
  | b0 :: b1 :: b2 :: b3 :: rest =>
    (((b0 * 256 + b1) * 256 + b2) * 256 + b3) :: bytesToWords rest
  | _ => []

/-- Extend the 16-word message schedule, one word per unit of fuel:
`w[i] = rotl1 (w[i-3] ^ w[i-8] ^ w[i-14] ^ w[i-16])`. -/
def extendWords : Nat → List Nat → List Nat
  | 0, ws => ws
  | fuel + 1, ws =>
    extendWords fuel (ws ++ [rotl32 1 (xor32 (ws.getD (ws.length - 3) 0)
      (xor32 (ws.getD (ws.length - 8) 0)
        (xor32 (ws.getD (ws.length - 14) 0) (ws.getD (ws.length - 16) 0))))])

/-- The SHA-1 round constant for round `i`. -/
def sha1K (i : Nat) : Nat :=
  if i < 20 then 0x5A827999
  else if i < 40 then 0x6ED9EBA1
  else if i < 60 then 0x8F1BBCDC
  else 0xCA62C1D6

/-- The SHA-1 round function for round `i`. -/
def sha1F (i b c d : Nat) : Nat :=
  if i < 20 then or32 (and32 b c) (and32 (not32 b) d)
  else if i < 40 then xor32 b (xor32 c d)
  else if i < 60 then or32 (or32 (and32 b c) (and32 b d)) (and32 c d)
  else xor32 b (xor32 c d)

/-- The 80 SHA-1 rounds, consuming one schedule word per round. -/
def sha1Rounds (i : Nat) (ws : List Nat) (st : Nat × Nat × Nat × Nat × Nat) :
    Nat × Nat × Nat × Nat × Nat :=
  match ws with
  | [] => st
  | w :: rest =>
    let a := st.1; let b := st.2.1; let c := st.2.2.1
    let d := st.2.2.2.1; let e := st.2.2.2.2
    sha1Rounds (i + 1) rest
      (add32 (rotl32 5 a) (add32 (sha1F i b c d) (add32 e (add32 (sha1K i) w))),
       a, rotl32 30 b, c, d)

/-- Process the padded message 64 bytes at a time; `fuel` is the number of
blocks remaining. -/
def sha1Blocks : Nat → Nat × Nat × Nat × Nat × Nat → List Nat →
    Nat × Nat × Nat × Nat × Nat
  | 0, h, _ => h
  | fuel + 1, h, bytes =>
    let ws := extendWords 64 (bytesToWords (bytes.take 64))
    let st := sha1Rounds 0 ws h
    sha1Blocks fuel
      (add32 h.1 st.1, add32 h.2.1 st.2.1, add32 h.2.2.1 st.2.2.1,
       add32 h.2.2.2.1 st.2.2.2.1, add32 h.2.2.2.2 st.2.2.2.2)
      (bytes.drop 64)

/-- SHA-1 of a byte string, as the 20-byte digest. -/
def sha1Bytes (msg : List Nat) : List Nat :=
  let padded := sha1Pad msg
  let h := sha1Blocks (padded.length / 64)
    (0x67452301, 0xEFCDAB89, 0x98BADCFE, 0x10325476, 0xC3D2E1F0) padded
  bigEndian4 h.1 ++ bigEndian4 h.2.1 ++ bigEndian4 h.2.2.1 ++
    bigEndian4 h.2.2.2.1 ++ bigEndian4 h.2.2.2.2

/-- The lowercase hex digit for a nibble. -/
def hexDigit (n : Nat) : Char :=
  if n < 10 then Char.ofNat (48 + n) else Char.ofNat (87 + n)

/-- Lowercase hex rendering of a byte list (Go's `fmt.Sprintf("%x", ...)`). -/
def bytesToHex (bs : List Nat) : String :=
  String.mk (bs.foldr (fun b acc => hexDigit (b / 16) :: hexDigit (b % 16) :: acc) [])

/-- SHA-1 of a string, as a lowercase hex string.  The strings hashed by the
code under study are concatenations of hex digests, hence pure ASCII, for which
the UTF-8 bytes Go hashes coincide with the character code points. -/
def sha1Hex (s : String) : String :=
  bytesToHex (sha1Bytes (s.data.map Char.toNat))

/-! ## The entity model (`pkg/sbom/sbom.go`, modelled from the spec)

The struct definitions for `Spec`, `bom`, `pkg`, `file`, `relationship` and the
`element` interface live in `sbom.go`, which is not part of the source under
study; the shapes below follow the spec's data model (§3) and the way
`implementation.go` consumes the fields.  Field names keep the Go names;
the Go field `Type` is rendered `ty` (`Type` is reserved in Lean). -/

mutual
/-- Modelled from the spec: the `element` interface — a graph node is either a
`Package` or a `File`, each exposing identifier derivation. -/
inductive element : Type where
  | pk : pkg → element
  | fl : file → element

/-- Modelled from the spec: the `pkg` struct — name, version, copyright,
declared/concluded license, namespace, architecture, digest map, the
files-analyzed flag and the outgoing relationship list. -/
inductive pkg : Type where
  | mk : (Name Version Copyright LicenseDeclared LicenseConcluded ns Arch : String) →
      (Checksums : List (String × String)) → (FilesAnalyzed : Bool) →
      (Relationships : List relationship) → pkg

/-- Modelled from the spec: the `file` struct — path, digest map and outgoing
relationship list. -/
inductive file : Type where
  | mk : (Name : String) → (Checksums : List (String × String)) →
      (Relationships : List relationship) → file

/-- Modelled from the spec: the `relationship` struct — a directed edge with a
source entity, a target entity and a relationship kind (`Type` in Go). -/
inductive relationship : Type where
  | mk : (Source : element) → (Target : element) → (ty : String) → relationship
end

def pkg.Name : pkg → String | .mk n _ _ _ _ _ _ _ _ _ => n
def pkg.Version : pkg → String | .mk _ v _ _ _ _ _ _ _ _ => v
def pkg.Copyright : pkg → String | .mk _ _ c _ _ _ _ _ _ _ => c
def pkg.LicenseDeclared : pkg → String | .mk _ _ _ ld _ _ _ _ _ _ => ld
def pkg.LicenseConcluded : pkg → String | .mk _ _ _ _ lc _ _ _ _ _ => lc
def pkg.Namespace : pkg → String | .mk _ _ _ _ _ ns _ _ _ _ => ns
def pkg.Arch : pkg → String | .mk _ _ _ _ _ _ a _ _ _ => a
def pkg.Checksums : pkg → List (String × String) | .mk _ _ _ _ _ _ _ cs _ _ => cs
def pkg.FilesAnalyzed : pkg → Bool | .mk _ _ _ _ _ _ _ _ fa _ => fa
def pkg.Relationships : pkg → List relationship | .mk _ _ _ _ _ _ _ _ _ rs => rs

def file.Name : file → String | .mk n _ _ => n
def file.Checksums : file → List (String × String) | .mk _ cs _ => cs
def file.Relationships : file → List relationship | .mk _ _ rs => rs

def relationship.Source : relationship → element | .mk s _ _ => s
def relationship.Target : relationship → element | .mk _ t _ => t
def relationship.ty : relationship → String | .mk _ _ t => t

/-- Modelled from the spec: `pkg.ID()` — a stable, deterministic identifier
derived from the package's semantic fields (name and version), used as a graph
node key and as the document cross-reference id. -/
def pkg.ID (p : pkg) : String := "SPDXRef-Package-" ++ p.Name ++ "-" ++ p.Version

/-- Modelled from the spec: `file.ID()` — an identifier derived
deterministically from the file's path. -/
def file.ID (f : file) : String := "SPDXRef-File-" ++ f.Name

/-- Modelled from the spec: identifier derivation dispatched on the entity
variant, as the `element` interface does in Go. -/
def element.ID : element → String
  | .pk p => p.ID
  | .fl f => f.ID

/-- Modelled from the spec: the fields of the generator `Spec` that the
engine consumes (package identity metadata, §6 configuration values). -/
structure Spec where
  PackageName : String
  PackageVersion : String
  License : String
  Copyright : String
  Namespace : String
  Arch : String
deriving DecidableEq

/-- Modelled from the spec: the root `bom` object — a flat list of top-level
packages and files. -/
structure bom where
  Packages : List pkg
  Files : List file

/-! ## The SPDX output document (`chainguard.dev/apko/pkg/sbom/generator/spdx`)

Plain data records, modelled from the spec's output schema (§6).  The Go field
`Type` is again rendered `ty`; the Go pointer `*PackageVerificationCode`
becomes an `Option` (nil ↦ `none`); nil slices are empty lists. -/

namespace spdx

/-- The SPDX no-assertion sentinel (`spdx.NOASSERTION`). -/
def NOASSERTION : String := "NOASSERTION"

/-- An (algorithm, value) checksum pair. -/
structure Checksum where
  Algorithm : String
  Value : String
deriving DecidableEq

/-- An external reference (category, locator, type). -/
structure ExternalRef where
  Category : String
  Locator : String
  ty : String
deriving DecidableEq

/-- A package verification code: value plus excluded-files list. -/
structure PackageVerificationCode where
  Value : String
  ExcludedFiles : List String
deriving DecidableEq

/-- An SPDX package record. -/
structure Package where
  ID : String
  Name : String
  Version : String
  FilesAnalyzed : Bool
  HasFiles : List String
  LicenseConcluded : String
  LicenseDeclared : String
  DownloadLocation : String
  LicenseInfoFromFiles : List String
  CopyrightText : String
  Checksums : List Checksum
  ExternalRefs : List ExternalRef
  VerificationCode : Option PackageVerificationCode := none
deriving DecidableEq

/-- An SPDX file record. -/
structure File where
  ID : String
  Name : String
  LicenseConcluded : String
  FileTypes : List String
  LicenseInfoInFile : List String
  Checksums : List Checksum
deriving DecidableEq

/-- An SPDX relationship record (element id, type, related id). -/
structure Relationship where
  Element : String
  ty : String
  Related : String
deriving DecidableEq

/-- SPDX creation info. -/
structure CreationInfo where
  Created : String
  Creators : List String
  LicenseListVersion : String
deriving DecidableEq

/-- An SPDX 2.3 document. -/
structure Document where
  ID : String
  Name : String
  Version : String
  CreationInfo : CreationInfo
  DataLicense : String
  Namespace : String
  DocumentDescribes : List String
  Files : List File
  Packages : List Package
  Relationships : List Relationship
  ExternalDocumentRefs : List String
deriving DecidableEq

end spdx

/-! ## Helpers shared by the translation -/

/-- Lookup in an association list, modelling Go map indexing
(`m[k]` / `v, ok := m[k]`). -/
def lookupKey {β : Type} (k : String) : List (String × β) → Option β
  | [] => none
  | (k', v) :: rest => if k' = k then some v else lookupKey k rest

/-- Ascending sort of a string list, modelling Go's `sort.Strings` (Go compares
UTF-8 bytes; UTF-8 preserves code-point order, so this agrees with `≤` on
Lean strings). -/
def sortStrings (l : List String) : List String :=
  List.insertionSort (· ≤ ·) l

/-! ## `computeVerificationCode` (implementation.go:228) -/

/-- `computeVerificationCode`: sort the digests, concatenate them and take the
SHA-1 hex digest.  The Go `return ""` branch fires only when `sha1.Write`
reports an error, which `hash.Hash.Write` never does, so it is dead code and
not modelled. -/
def computeVerificationCode (hashList : List String) : String :=
  sha1Hex (String.join (sortStrings hashList))

/-! ## `addPackage` / `addFile` / `sbomHasRelationship`
(implementation.go:239, 333, 373) -/

/-- The sorted checksum list built by `addPackage`/`addFile`: collect the map
keys, sort them, and emit one `(algorithm, value)` pair per key. -/
def sortedChecksums (m : List (String × String)) : List spdx.Checksum :=
  (sortStrings (m.map Prod.fst)).filterMap fun algo =>
    (lookupKey algo m).map fun v => { Algorithm := algo, Value := v }

/-- The `HasFiles` list collected by `addPackage`'s file loop
(implementation.go:273-282): the id of every relationship target that is a
file, in relationship order. -/
def hasFilesIDs (rels : List relationship) : List String :=
  rels.filterMap fun r =>
    match r.Target with
    | .fl f => some f.ID
    | .pk _ => none

/-- The `hashList` collected by the same loop: the SHA-1 digest of every file
target that has one. -/
def vcHashes (rels : List relationship) : List String :=
  rels.filterMap fun r =>
    match r.Target with
    | .fl f => lookupKey "SHA1" f.Checksums
    | .pk _ => none

/-- The `excluded` list collected by the same loop: the id of every file
target that lacks a SHA-1 digest. -/
def vcExcluded (rels : List relationship) : List String :=
  rels.filterMap fun r =>
    match r.Target with
    | .fl f =>
      match lookupKey "SHA1" f.Checksums with
      | some _ => none
      | none => some f.ID
    | .pk _ => none

/-- Modelled from the spec: the canonical string of the package URL
synthesized by `addPackage` via the external `packageurl-go` library
(type `apk`, namespace, name, version, and an `arch` qualifier when the
architecture is set). -/
def purlString (ns name version arch : String) : String :=
  "pkg:apk/" ++ ns ++ "/" ++ name ++ "@" ++ version ++
    (if arch = "" then "" else "?arch=" ++ arch)

/-- The package record built by `addPackage` (implementation.go:240-310)
before it is appended to the document: scalar fields, sorted checksums, the
verification code over the file targets' SHA-1 digests (with excluded files),
and the purl external reference when a namespace is declared. -/
def lowerPkg (p : pkg) : spdx.Package :=
  let hashList := vcHashes p.Relationships
  let excluded := vcExcluded p.Relationships
  let verificationCode := computeVerificationCode hashList
  { ID := p.ID
    Name := p.Name
    Version := p.Version
    FilesAnalyzed := if verificationCode ≠ "" then true else false
    HasFiles := hasFilesIDs p.Relationships
    LicenseConcluded := p.LicenseConcluded
    LicenseDeclared := p.LicenseDeclared
    DownloadLocation := spdx.NOASSERTION
    LicenseInfoFromFiles := []
    CopyrightText := p.Copyright
    Checksums := sortedChecksums p.Checksums
    ExternalRefs :=
      if p.Namespace ≠ "" then
        [{ Category := "PACKAGE_MANAGER"
           Locator := purlString p.Namespace p.Name p.Version p.Arch
           ty := "purl" }]
      else []
    VerificationCode :=
      if verificationCode ≠ "" then
        some { Value := verificationCode
               ExcludedFiles := if excluded.length > 0 then excluded else [] }
      else none }

/-- The file record built by `addFile` (implementation.go:334-353). -/
def lowerFile (f : file) : spdx.File :=
  { ID := f.ID
    Name := f.Name
    LicenseConcluded := spdx.NOASSERTION
    FileTypes := []
    LicenseInfoInFile := []
    Checksums := sortedChecksums f.Checksums }

/-- `sbomHasRelationship`: whether the document already holds a relationship
record with the same (source id, kind, target id) triple. -/
def sbomHasRelationship (doc : spdx.Document) (r : relationship) : Bool :=
  doc.Relationships.any fun sr =>
    sr.Element == r.Source.ID && sr.Related == r.Target.ID && sr.ty == r.ty

mutual
/-- `addPackage` (implementation.go:239-331): append the lowered package
record, then walk its relationships, recursively lowering each target not yet
recorded and appending a relationship record per package relationship. -/
def addPackage (doc : spdx.Document) (p : pkg) : spdx.Document :=
  match p with
  | .mk _ _ _ _ _ _ _ _ _ rels =>
    addPkgRels { doc with Packages := doc.Packages ++ [lowerPkg p] } rels

/-- The relationship loop of `addPackage` (implementation.go:315-330): skip
triples already present, otherwise recurse into the target and append the
(element, type, related) record. -/
def addPkgRels (doc : spdx.Document) (rels : List relationship) : spdx.Document :=
  match rels with
  | [] => doc
  | .mk s t ty :: rest =>
    let doc' :=
      if sbomHasRelationship doc (.mk s t ty) then doc
      else
        let doc2 :=
          match t with
          | .fl f => addFile doc f
          | .pk q => addPackage doc q
        { doc2 with
          Relationships := doc2.Relationships ++
            [{ Element := s.ID, ty := ty, Related := t.ID }] }
    addPkgRels doc' rest

/-- `addFile` (implementation.go:333-369): append the lowered file record,
then walk the file's relationships, recursing into targets not yet recorded
(note: unlike `addPackage`, no relationship record is appended here). -/
def addFile (doc : spdx.Document) (f : file) : spdx.Document :=
  match f with
  | .mk _ _ rels =>
    addFileRels { doc with Files := doc.Files ++ [lowerFile f] } rels

/-- The relationship loop of `addFile` (implementation.go:358-368). -/
def addFileRels (doc : spdx.Document) (rels : List relationship) : spdx.Document :=
  match rels with
  | [] => doc
  | .mk s t ty :: rest =>
    let doc' :=
      if sbomHasRelationship doc (.mk s t ty) then doc
      else
        match t with
        | .fl f => addFile doc f
        | .pk q => addPackage doc q
    addFileRels doc' rest
end

/-! ## `GenerateAPKPackage` (implementation.go:108) -/

/-- `GenerateAPKPackage`: fail when the package name is empty; otherwise build
the apk package with empty relationships, concluded license `NOASSERTION`, and
declared license `NOASSERTION` overridden by the supplied license when it is
non-empty. -/
def GenerateAPKPackage (spec : Spec) : Except String pkg :=
  if spec.PackageName = "" then
    .error "unable to generate package, name not specified"
  else
    .ok (pkg.mk spec.PackageName spec.PackageVersion spec.Copyright
      (if spec.License ≠ "" then spec.License else spdx.NOASSERTION)
      spdx.NOASSERTION spec.Namespace spec.Arch [] false [])

/-! ## `ScanFiles` (implementation.go:133)

The walking and hashing of the tree run under a bounded worker pool and a
`sync.Map` keyed store; the post-drain phase (implementation.go:186-217) is
the part that determines the package's relationship list.  The store's
contents after the pool drains are modelled as an association list
`List (String × file)` in arbitrary order — the order models the order in
which concurrent digesting units completed (`sync.Map.Range` order); the
store's keys are unique by construction of `sync.Map`. -/

/-- Set the `FilesAnalyzed` flag, as `ScanFiles` does before scanning. -/
def pkg.setFilesAnalyzed : pkg → Bool → pkg
  | .mk n v c ld lc ns a cs _ rs, b => .mk n v c ld lc ns a cs b rs

/-- Append relationships to a package's list. -/
def pkg.addRels : pkg → List relationship → pkg
  | .mk n v c ld lc ns a cs fa rs, newRels => .mk n v c ld lc ns a cs fa (rs ++ newRels)

/-- The post-drain phase of `ScanFiles`: mark the package analyzed, collect the
store's keys, sort them, and append one `CONTAINS` relationship per key, with
the scanned package as source and the stored file as target, in sorted key
order.  (In Go the source is a pointer to the package being extended; only the
source's id — which does not depend on the relationship list — is ever
consulted downstream, so the model records the package value before the
relationships are attached.) -/
def scanFilesAttach (dirPackage : pkg) (store : List (String × file)) : pkg :=
  let p1 := dirPackage.setFilesAnalyzed true
  let pathList := sortStrings (store.map Prod.fst)
  p1.addRels (pathList.filterMap fun path =>
    (lookupKey path store).map fun f =>
      relationship.mk (.pk p1) (.fl f) "CONTAINS")

/-! ## `buildDocumentSPDX` (implementation.go:383) -/

/-- Go's `strconv.ParseInt(v, 10, 64)`: an optional sign followed by at least
one ASCII digit, rejecting anything else, and rejecting values outside the
64-bit signed range. -/
def parseInt64 (s : String) : Option Int :=
  match s.data with
  | [] => none
  | c :: rest =>
    let digits : List Char :=
      if c = '-' ∨ c = '+' then rest else c :: rest
    let neg : Bool := c = '-'
    if digits = [] then none
    else if digits.all fun d => '0' ≤ d ∧ d ≤ '9' then
      let n : Nat := digits.foldl (fun acc d => acc * 10 + (d.toNat - 48)) 0
      let v : Int := if neg then -(n : Int) else (n : Int)
      if -(2 ^ 63) ≤ v ∧ v ≤ 2 ^ 63 - 1 then some v else none
    else none

/-- The document skeleton of `buildDocumentSPDX` (implementation.go:396-415)
and its lowering loops (417-425): describe every top-level package and file and
lower each through `addPackage` / `addFile`.  `toolVersion` stands for the
external `version.GetVersionInfo().GitVersion` string. -/
def buildDoc (toolVersion created : String) (spec : Spec) (doc : bom) :
    spdx.Document :=
  let init : spdx.Document :=
    { ID := "SPDXRef-DOCUMENT-" ++ ("apk-" ++ spec.PackageName ++ "-" ++ spec.PackageVersion)
      Name := "apk-" ++ spec.PackageName ++ "-" ++ spec.PackageVersion
      Version := "SPDX-2.3"
      CreationInfo :=
        { Created := created
          Creators := ["Tool: melange (" ++ toolVersion ++ ")",
                       "Organization: Chainguard, Inc"]
          LicenseListVersion := "3.18" }
      DataLicense := "CC0-1.0"
      Namespace := "https://spdx.org/spdxdocs/chainguard/melange/"
      DocumentDescribes := []
      Files := []
      Packages := []
      Relationships := []
      ExternalDocumentRefs := [] }
  let d1 := doc.Packages.foldl
    (fun d p =>
      addPackage { d with DocumentDescribes := d.DocumentDescribes ++ [p.ID] } p)
    init
  doc.Files.foldl
    (fun d f =>
      addFile { d with DocumentDescribes := d.DocumentDescribes ++ [f.ID] } f)
    d1

/-- `buildDocumentSPDX` (implementation.go:383-427): the creation timestamp is
the wall clock (`now`, Go's `time.Now().UTC().Format(time.RFC3339)`) unless
`SOURCE_DATE_EPOCH` is present, in which case it is parsed as a base-10 64-bit
integer — failing the build on a parse error — and rendered through `fmtUnix`,
which stands for Go's `time.Unix(sec, 0).UTC().Format(time.RFC3339)`. -/
def buildDocumentSPDX (toolVersion now : String) (sourceDateEpoch : Option String)
    (fmtUnix : Int → String) (spec : Spec) (doc : bom) :
    Except String spdx.Document :=
  match sourceDateEpoch with
  | some v =>
    match parseInt64 v with
    | none => .error "failed to parse SOURCE_DATE_EPOCH"
    | some sec => .ok (buildDoc toolVersion (fmtUnix sec) spec doc)
  | none => .ok (buildDoc toolVersion now spec doc)

/-! ## `ParseBuildSBOM` (implementation.go:431) -/

/-- One package's contribution to the splice list (the inner loop at
implementation.go:450-464): the package is appended once per external
reference whose type field is `"purl"`, whose locator parses, and whose parsed
purl type is not `"oci"` (`purl.TypeOCI`).  `purlParse` stands for the
external `purl.FromString`, returning the parsed purl type or `none` on a
malformed locator. -/
def spliceOne (purlParse : String → Option String) (p : spdx.Package) :
    List spdx.Package :=
  p.ExternalRefs.foldl
    (fun acc e =>
      if e.ty == "purl" then
        match purlParse e.Locator with
        | none => acc
        | some t => if t == "oci" then acc else acc ++ [p]
      else acc)
    []

/-- The `ret` list of `ParseBuildSBOM` (implementation.go:448-466): the outer
loop over the build SBOM's packages.  (Go guards the inner loop with
`len(p.ExternalRefs) > 0`, which is redundant with looping over the refs.) -/
def spliceList (purlParse : String → Option String) (pkgs : List spdx.Package) :
    List spdx.Package :=
  pkgs.foldl (fun acc p => acc ++ spliceOne purlParse p) []

/-- `ParseBuildSBOM` (implementation.go:431-482): `buildData` models the
composite outcome of `os.ReadFile` on the build-environment SBOM followed by
`json.Unmarshal` (an error on either is returned first); then the apk document
must have a described root; then the spliced packages are appended to the
package list and one `BUILD_DEPENDENCY_OF` relationship to the first described
root is appended per spliced entry. -/
def ParseBuildSBOM (purlParse : String → Option String)
    (buildData : Except String spdx.Document) (apkSBOM : spdx.Document) :
    Except String spdx.Document :=
  match buildData with
  | .error e => .error ("reading or unmarshaling build environment SBOM: " ++ e)
  | .ok buildSBOM =>
    if apkSBOM.DocumentDescribes = [] then
      .error "apk package sbom has no root elements"
    else
      let ret := spliceList purlParse buildSBOM.Packages
      let rootId := apkSBOM.DocumentDescribes.headD ""
      .ok { apkSBOM with
            Packages := apkSBOM.Packages ++ ret
            Relationships := apkSBOM.Relationships ++
              ret.map fun p =>
                { Element := p.ID, ty := "BUILD_DEPENDENCY_OF", Related := rootId } }

/-! ## `WriteSBOM` (implementation.go:485) -/

/-- The observable state of the output file after a run of `WriteSBOM`:
no file, a file created but not completely encoded (`os.Create` succeeded and
`Encode` then failed, leaving a truncated or partially written file), or a
completely encoded document. -/
inductive FileState : Type where
  | absent : FileState
  | incomplete : FileState
  | written : spdx.Document → FileState
deriving DecidableEq

/-- `WriteSBOM` (implementation.go:485-510): build the SPDX document, merge
the build-environment SBOM, create the output file, and encode the document
into it.  `createOk` and `encodeOk` model the outcomes of `os.Create` and
`Encoder.Encode`; the second component is the resulting on-disk state. -/
def WriteSBOM (toolVersion now : String) (sourceDateEpoch : Option String)
    (fmtUnix : Int → String) (spec : Spec) (doc : bom)
    (purlParse : String → Option String) (buildData : Except String spdx.Document)
    (createOk encodeOk : Bool) : Except String Unit × FileState :=
  match buildDocumentSPDX toolVersion now sourceDateEpoch fmtUnix spec doc with
  | .error e => (.error ("building SPDX document: " ++ e), .absent)
  | .ok spdxDoc =>
    match ParseBuildSBOM purlParse buildData spdxDoc with
    | .error e => (.error ("parsing build environment SBOM: " ++ e), .absent)
    | .ok merged =>
      if createOk then
        if encodeOk then (.ok (), .written merged)
        else (.error "encoding spdx sbom", .incomplete)
      else (.error "opening SBOM file for writing", .absent)

/-! ## Derived predicates used to state the properties -/

/-- The qualification test applied to one external reference by
`ParseBuildSBOM`'s inner loop: the reference is of type `"purl"`, its locator
parses, and the parsed purl type is not `"oci"`. -/
def qualifies (purlParse : String → Option String) (e : spdx.ExternalRef) : Bool :=
  e.ty == "purl" &&
    match purlParse e.Locator with
    | none => false
    | some t => !(t == "oci")

/-- The ids of all package and file records present in a document. -/
def docIds (d : spdx.Document) : List String :=
  d.Packages.map spdx.Package.ID ++ d.Files.map spdx.File.ID

/-- No dangling references: every id used by a relationship record or listed
as a described root names a package or file record of the same document. -/
def docOK (d : spdx.Document) : Prop :=
  (∀ r ∈ d.Relationships, r.Element ∈ docIds d ∧ r.Related ∈ docIds d) ∧
  ∀ i ∈ d.DocumentDescribes, i ∈ docIds d

/-- `d'` extends `d`: identical document metadata, with possibly more package,
file and relationship records appended at the end. -/
def docExtends (d d' : spdx.Document) : Prop :=
  ∃ ps fs rs,
    d' = { d with Packages := d.Packages ++ ps,
                  Files := d.Files ++ fs,
                  Relationships := d.Relationships ++ rs }

/-- The identifying triple (source id, kind, target id) of a relationship
record. -/
def relTriple (r : spdx.Relationship) : String × String × String :=
  (r.Element, r.ty, r.Related)

/-- The triples of all relationship records of a document. -/
def docTriples (d : spdx.Document) : List (String × String × String) :=
  d.Relationships.map relTriple

/-- The path of a relationship's target (used to state the scanner's output
order). -/
def relTargetName (r : relationship) : String :=
  match r.Target with
  | .fl f => f.Name
  | .pk q => q.Name

/-- The shape `ScanFiles` gives a package's relationship list: every target is
a file with no relationships of its own. -/
def shapeRels : List relationship → Bool
  | [] => true
  | .mk _ t _ :: rest =>
    (match t with
     | .fl f => f.Relationships.isEmpty
     | .pk _ => false) && shapeRels rest

/-- A package as produced by the assembler plus scanner: its relationship
targets are all files without further relationships. -/
def scannerShaped (p : pkg) : Bool := shapeRels p.Relationships

mutual
/-- Well-formed entity: dispatch on the variant. -/
def wfE : element → Bool
  | .pk p => wfP p
  | .fl f => wfF f

/-- Well-formed package: every relationship it owns records the package
itself (by id) as source, and has a well-formed target.  This is the shape the
assembler and scanner produce (`ScanFiles` sets `Source` to the package being
scanned). -/
def wfP : pkg → Bool
  | .mk n v _ _ _ _ _ _ _ rels =>
    wfSrcRels ("SPDXRef-Package-" ++ n ++ "-" ++ v) rels

/-- Relationship list whose sources all carry the given id and whose targets
are well-formed. -/
def wfSrcRels : String → List relationship → Bool
  | _, [] => true
  | pid, .mk s t _ :: rest => (s.ID == pid) && wfE t && wfSrcRels pid rest

/-- Well-formed file: all relationship targets are well-formed (file
relationships never emit relationship records, so no source condition is
needed). -/
def wfF : file → Bool
  | .mk _ _ rels => wfTgtRels rels

/-- Relationship list whose targets are all well-formed. -/
def wfTgtRels : List relationship → Bool
  | [] => true
  | .mk _ t _ :: rest => wfE t && wfTgtRels rest
end

/-! ## Concrete sample data used in the closed instance theorems -/

/-- An empty SPDX document. -/
def docInit : spdx.Document :=
  { ID := "SPDXRef-DOCUMENT-apk-x-1"
    Name := "apk-x-1"
    Version := "SPDX-2.3"
    CreationInfo := { Created := "t", Creators := [], LicenseListVersion := "3.18" }
    DataLicense := "CC0-1.0"
    Namespace := "https://spdx.org/spdxdocs/chainguard/melange/"
    DocumentDescribes := []
    Files := []
    Packages := []
    Relationships := []
    ExternalDocumentRefs := [] }

/-- A sample generator spec. -/
def sampleSpec : Spec :=
  { PackageName := "x", PackageVersion := "1", License := "", Copyright := ""
    Namespace := "", Arch := "" }

/-- A package with no relationships at all. -/
def noRelPkg : pkg :=
  .mk "x" "1" "" "NOASSERTION" "NOASSERTION" "" "" [] false []

/-- A source entity of id `SPDXRef-Package-s-1`. -/
def srcEnt : element := .pk (.mk "s" "1" "" "" "" "" "" [] false [])

/-- A package of id `SPDXRef-Package-q-1` with no relationships. -/
def qLeaf : pkg := .mk "q" "1" "" "" "" "" "" [] false []

/-- A package with the same id as `qLeaf` whose single relationship carries
the triple (`SPDXRef-Package-s-1`, `CONTAINS`, `SPDXRef-Package-q-1`). -/
def qNested : pkg :=
  .mk "q" "1" "" "" "" "" "" [] false [.mk srcEnt (.pk qLeaf) "CONTAINS"]

/-- A package whose single relationship carries that same triple but targets
`qNested`: lowering it emits the triple twice. -/
def dupTriplePkg : pkg :=
  .mk "p" "1" "" "" "" "" "" [] false [.mk srcEnt (.pk qNested) "CONTAINS"]

/-- A scanned sample file carrying a SHA-1 digest. -/
def sampleFile : file :=
  .mk "/usr/bin/tool" [("SHA1", "aa")] []

/-- A second scanned sample file. -/
def fileA : file := .mk "/a" [("SHA1", "a1")] []

/-- A third scanned sample file. -/
def fileB : file := .mk "/b" [("SHA1", "b1")] []

/-- A scanned sample file lacking a SHA-1 digest. -/
def noSha1File : file :=
  .mk "/usr/bin/other" [("SHA256", "bb")] []

/-- A package containing one file relationship whose target lacks a SHA-1
digest. -/
def exclPkg : pkg :=
  .mk "x" "1" "" "NOASSERTION" "NOASSERTION" "" "" [] false
    [.mk (.pk noRelPkg) (.fl noSha1File) "CONTAINS"]

/-- A build-environment document with no packages. -/
def emptyBuildDoc : spdx.Document := docInit

/-- An upstream package with two qualifying purl references. -/
def twoPurlPkg : spdx.Package :=
  { ID := "SPDXRef-Package-dep-2"
    Name := "dep"
    Version := "2"
    FilesAnalyzed := false
    HasFiles := []
    LicenseConcluded := "NOASSERTION"
    LicenseDeclared := "NOASSERTION"
    DownloadLocation := "NOASSERTION"
    LicenseInfoFromFiles := []
    CopyrightText := ""
    Checksums := []
    ExternalRefs :=
      [{ Category := "PACKAGE_MANAGER", Locator := "pkg:apk/a/x@1", ty := "purl" },
       { Category := "PACKAGE_MANAGER", Locator := "pkg:apk/a/y@1", ty := "purl" }]
    VerificationCode := none }

/-- A build-environment document holding `twoPurlPkg`. -/
def twoPurlBuildDoc : spdx.Document :=
  { docInit with Packages := [twoPurlPkg] }

/-- An apk document with one described root. -/
def rootedApkDoc : spdx.Document :=
  { docInit with DocumentDescribes := ["SPDXRef-Package-x-1"] }

/-- A purl parser that accepts every locator with type `apk`. -/
def allApkParse : String → Option String := fun _ => some "apk"

/-- A bom holding one scanned file and no packages. -/
def oneFileBom : bom := { Packages := [], Files := [sampleFile] }

/-- The document built from `oneFileBom`. -/
def builtOneFileDoc : spdx.Document := buildDoc "v" "t" sampleSpec oneFileBom

/-- `builtOneFileDoc` merged with the empty build-environment document. -/
def mergedOneFileDoc : spdx.Document :=
  { builtOneFileDoc with
    Packages := builtOneFileDoc.Packages ++
      spliceList allApkParse emptyBuildDoc.Packages
    Relationships := builtOneFileDoc.Relationships ++
      (spliceList allApkParse emptyBuildDoc.Packages).map fun p =>
        { Element := p.ID, ty := "BUILD_DEPENDENCY_OF"
          Related := builtOneFileDoc.DocumentDescribes.headD "" } }

/-- The document produced by merging `twoPurlBuildDoc` into `rootedApkDoc`. -/
def twoPurlMergedDoc : spdx.Document :=
  { rootedApkDoc with
    Packages := rootedApkDoc.Packages ++ spliceList allApkParse twoPurlBuildDoc.Packages
    Relationships := rootedApkDoc.Relationships ++
      (spliceList allApkParse twoPurlBuildDoc.Packages).map fun p =>
        { Element := p.ID, ty := "BUILD_DEPENDENCY_OF"
          Related := rootedApkDoc.DocumentDescribes.headD "" } }

/-! ## Structural lemmas about the lowering recursion -/

theorem docExtends_refl (d : spdx.Document) : docExtends d d :=
  ⟨[], [], [], by simp⟩

theorem docExtends_trans {d1 d2 d3 : spdx.Document}
    (h1 : docExtends d1 d2) (h2 : docExtends d2 d3) : docExtends d1 d3 := by
  obtain ⟨ps1, fs1, rs1, rfl⟩ := h1
  obtain ⟨ps2, fs2, rs2, rfl⟩ := h2
  exact ⟨ps1 ++ ps2, fs1 ++ fs2, rs1 ++ rs2, by simp⟩

mutual
theorem addPackage_extends (doc : spdx.Document) (p : pkg) :
    docExtends doc (addPackage doc p) := by
  match p with
  | .mk n v c ld lc ns a cs fa rels =>
    rw [addPackage]
    exact docExtends_trans
      ⟨[lowerPkg (.mk n v c ld lc ns a cs fa rels)], [], [], by simp⟩
      (addPkgRels_extends _ rels)

theorem addPkgRels_extends (doc : spdx.Document) (rels : List relationship) :
    docExtends doc (addPkgRels doc rels) := by
  match rels with
  | [] =>
    rw [addPkgRels]
    exact docExtends_refl doc
  | .mk s (.fl f) ty :: rest =>
    by_cases h : sbomHasRelationship doc (.mk s (.fl f) ty) = true
    · rw [show addPkgRels doc (.mk s (.fl f) ty :: rest) = addPkgRels doc rest by
        simp [addPkgRels, h]]
      exact addPkgRels_extends doc rest
    · rw [show addPkgRels doc (.mk s (.fl f) ty :: rest) =
          addPkgRels { addFile doc f with
            Relationships := (addFile doc f).Relationships ++
              [{ Element := s.ID, ty := ty, Related := (element.fl f).ID }] } rest by
        simp [addPkgRels, h]]
      exact docExtends_trans
        (docExtends_trans (addFile_extends doc f)
          ⟨[], [], [{ Element := s.ID, ty := ty, Related := (element.fl f).ID }], by simp⟩)
        (addPkgRels_extends _ rest)
  | .mk s (.pk q) ty :: rest =>
    by_cases h : sbomHasRelationship doc (.mk s (.pk q) ty) = true
    · rw [show addPkgRels doc (.mk s (.pk q) ty :: rest) = addPkgRels doc rest by
        simp [addPkgRels, h]]
      exact addPkgRels_extends doc rest
    · rw [show addPkgRels doc (.mk s (.pk q) ty :: rest) =
          addPkgRels { addPackage doc q with
            Relationships := (addPackage doc q).Relationships ++
              [{ Element := s.ID, ty := ty, Related := (element.pk q).ID }] } rest by
        simp [addPkgRels, h]]
      exact docExtends_trans
        (docExtends_trans (addPackage_extends doc q)
          ⟨[], [], [{ Element := s.ID, ty := ty, Related := (element.pk q).ID }], by simp⟩)
        (addPkgRels_extends _ rest)

theorem addFile_extends (doc : spdx.Document) (f : file) :
    docExtends doc (addFile doc f) := by
  match f with
  | .mk n cs rels =>
    rw [addFile]
    exact docExtends_trans ⟨[], [lowerFile (.mk n cs rels)], [], by simp⟩
      (addFileRels_extends _ rels)

theorem addFileRels_extends (doc : spdx.Document) (rels : List relationship) :
    docExtends doc (addFileRels doc rels) := by
  match rels with
  | [] =>
    rw [addFileRels]
    exact docExtends_refl doc
  | .mk s (.fl f) ty :: rest =>
    by_cases h : sbomHasRelationship doc (.mk s (.fl f) ty) = true
    · rw [show addFileRels doc (.mk s (.fl f) ty :: rest) = addFileRels doc rest by
        simp [addFileRels, h]]
      exact addFileRels_extends doc rest
    · rw [show addFileRels doc (.mk s (.fl f) ty :: rest) =
          addFileRels (addFile doc f) rest by simp [addFileRels, h]]
      exact docExtends_trans (addFile_extends doc f) (addFileRels_extends _ rest)
  | .mk s (.pk q) ty :: rest =>
    by_cases h : sbomHasRelationship doc (.mk s (.pk q) ty) = true
    · rw [show addFileRels doc (.mk s (.pk q) ty :: rest) = addFileRels doc rest by
        simp [addFileRels, h]]
      exact addFileRels_extends doc rest
    · rw [show addFileRels doc (.mk s (.pk q) ty :: rest) =
          addFileRels (addPackage doc q) rest by simp [addFileRels, h]]
      exact docExtends_trans (addPackage_extends doc q) (addFileRels_extends _ rest)
end

theorem docExtends_ids {d d' : spdx.Document} (h : docExtends d d') :
    ∀ x ∈ docIds d, x ∈ docIds d' := by
  obtain ⟨ps, fs, rs, rfl⟩ := h
  intro x hx
  simp only [docIds, List.map_append, List.mem_append] at hx ⊢
  rcases hx with hx | hx
  · exact Or.inl (Or.inl hx)
  · exact Or.inr (Or.inl hx)

theorem docExtends_meta {d d' : spdx.Document} (h : docExtends d d') :
    d'.CreationInfo = d.CreationInfo ∧ d'.DocumentDescribes = d.DocumentDescribes := by
  obtain ⟨ps, fs, rs, rfl⟩ := h
  exact ⟨rfl, rfl⟩

theorem docExtends_rels {d d' : spdx.Document} (h : docExtends d d') :
    ∃ rs, d'.Relationships = d.Relationships ++ rs := by
  obtain ⟨ps, fs, rs, rfl⟩ := h
  exact ⟨rs, rfl⟩

theorem lowerPkg_ID (p : pkg) : (lowerPkg p).ID = p.ID := rfl

theorem lowerFile_ID (f : file) : (lowerFile f).ID = f.ID := rfl

/-- `addPackage` appends the lowered record of its argument first, before any
record produced by the recursion into relationship targets. -/
theorem addPackage_packages (doc : spdx.Document) (p : pkg) :
    ∃ ps, (addPackage doc p).Packages = doc.Packages ++ lowerPkg p :: ps := by
  match p with
  | .mk n v c ld lc ns a cs fa rels =>
    obtain ⟨ps, fs, rs, h⟩ :=
      addPkgRels_extends
        { doc with Packages :=
            doc.Packages ++ [lowerPkg (.mk n v c ld lc ns a cs fa rels)] } rels
    rw [addPackage, h]
    exact ⟨ps, by simp⟩

/-- `addFile` appends the lowered record of its argument first. -/
theorem addFile_files (doc : spdx.Document) (f : file) :
    ∃ fs, (addFile doc f).Files = doc.Files ++ lowerFile f :: fs := by
  match f with
  | .mk n cs rels =>
    obtain ⟨ps, fs, rs, h⟩ :=
      addFileRels_extends
        { doc with Files := doc.Files ++ [lowerFile (.mk n cs rels)] } rels
    rw [addFile, h]
    exact ⟨fs, by simp⟩

theorem addPackage_id_mem (doc : spdx.Document) (p : pkg) :
    p.ID ∈ docIds (addPackage doc p) := by
  obtain ⟨ps, h⟩ := addPackage_packages doc p
  simp only [docIds, List.mem_append, List.mem_map]
  exact Or.inl ⟨lowerPkg p, by simp [h], lowerPkg_ID p⟩

theorem addFile_id_mem (doc : spdx.Document) (f : file) :
    f.ID ∈ docIds (addFile doc f) := by
  obtain ⟨fs, h⟩ := addFile_files doc f
  simp only [docIds, List.mem_append, List.mem_map]
  exact Or.inr ⟨lowerFile f, by simp [h], lowerFile_ID f⟩

/-- The package lowering loop of `buildDocumentSPDX` leaves the creation
info untouched. -/
theorem foldPkgs_creation (l : List pkg) (d : spdx.Document) :
    (l.foldl (fun d p =>
        addPackage { d with DocumentDescribes := d.DocumentDescribes ++ [p.ID] } p)
      d).CreationInfo = d.CreationInfo := by
  induction l generalizing d with
  | nil => rfl
  | cons p rest ih =>
    rw [List.foldl_cons, ih]
    obtain ⟨ps, fs, rs, h⟩ :=
      addPackage_extends { d with DocumentDescribes := d.DocumentDescribes ++ [p.ID] } p
    rw [h]

/-- The file lowering loop of `buildDocumentSPDX` leaves the creation info
untouched. -/
theorem foldFiles_creation (l : List file) (d : spdx.Document) :
    (l.foldl (fun d f =>
        addFile { d with DocumentDescribes := d.DocumentDescribes ++ [f.ID] } f)
      d).CreationInfo = d.CreationInfo := by
  induction l generalizing d with
  | nil => rfl
  | cons f rest ih =>
    rw [List.foldl_cons, ih]
    obtain ⟨ps, fs, rs, h⟩ :=
      addFile_extends { d with DocumentDescribes := d.DocumentDescribes ++ [f.ID] } f
    rw [h]

/-- The creation timestamp of the built document is exactly the `created`
string chosen by `buildDocumentSPDX`. -/
theorem buildDoc_created (toolVersion created : String) (spec : Spec) (b : bom) :
    (buildDoc toolVersion created spec b).CreationInfo.Created = created := by
  unfold buildDoc
  rw [foldFiles_creation, foldPkgs_creation]

/-! ## Sorting and association-list lemmas -/

/-- `sort.Strings` depends only on the multiset of its input: permuted inputs
sort to the same list. -/
theorem sortStrings_perm_eq {l₁ l₂ : List String} (h : List.Perm l₁ l₂) :
    sortStrings l₁ = sortStrings l₂ :=
  List.eq_of_perm_of_sorted
    (((List.perm_insertionSort _ l₁).trans h).trans
      (List.perm_insertionSort _ l₂).symm)
    (List.sorted_insertionSort _ l₁) (List.sorted_insertionSort _ l₂)

theorem sortStrings_perm (l : List String) : List.Perm (sortStrings l) l :=
  List.perm_insertionSort _ l

theorem lookupKey_some_mem {β : Type} {k : String} {v : β} :
    ∀ {l : List (String × β)}, lookupKey k l = some v → (k, v) ∈ l := by
  intro l
  induction l with
  | nil => intro h; simp [lookupKey] at h
  | cons kv rest ih =>
    intro h
    match kv with
    | (k', v') =>
      by_cases hk : k' = k
      · subst hk
        simp [lookupKey] at h
        simp [h]
      · rw [lookupKey, if_neg hk] at h
        exact List.mem_cons_of_mem _ (ih h)

theorem lookupKey_none_iff {β : Type} {k : String} :
    ∀ {l : List (String × β)}, lookupKey k l = none ↔ k ∉ l.map Prod.fst := by
  intro l
  induction l with
  | nil => simp [lookupKey]
  | cons kv rest ih =>
    match kv with
    | (k', v') =>
      by_cases hk : k' = k
      · subst hk
        simp [lookupKey]
      · rw [lookupKey, if_neg hk, ih]
        simp only [List.map_cons, List.mem_cons, not_or]
        constructor
        · intro h
          exact ⟨fun he => hk he.symm, h⟩
        · intro h
          exact h.2

theorem mem_lookupKey_of_nodup {β : Type} {k : String} {v : β} :
    ∀ {l : List (String × β)}, (l.map Prod.fst).Nodup → (k, v) ∈ l →
      lookupKey k l = some v := by
  intro l
  induction l with
  | nil => intro _ h; simp at h
  | cons kv rest ih =>
    intro hnd hm
    match kv with
    | (k', v') =>
      simp only [List.map_cons, List.nodup_cons] at hnd
      rcases List.mem_cons.mp hm with h | h
      · rw [lookupKey, if_pos (congrArg Prod.fst h).symm]
        exact congrArg some (congrArg Prod.snd h).symm
      · have hk : k' ≠ k := by
          intro he
          subst he
          exact hnd.1 (List.mem_map.mpr ⟨(k', v), h, rfl⟩)
        rw [lookupKey, if_neg hk]
        exact ih hnd.2 h

/-- With duplicate-free keys, lookup is invariant under permutation of the
store (the order concurrent units completed in). -/
theorem lookupKey_perm {β : Type} {l₁ l₂ : List (String × β)} (k : String)
    (hnd : (l₁.map Prod.fst).Nodup) (hp : List.Perm l₁ l₂) :
    lookupKey k l₁ = lookupKey k l₂ := by
  have hnd₂ : (l₂.map Prod.fst).Nodup := ((hp.map Prod.fst).nodup_iff).mp hnd
  cases h : lookupKey k l₁ with
  | none =>
    rw [eq_comm, lookupKey_none_iff]
    intro hk
    exact lookupKey_none_iff.mp h ((hp.map Prod.fst).symm.mem_iff.mp hk)
  | some v =>
    exact (mem_lookupKey_of_nodup hnd₂ (hp.mem_iff.mp (lookupKey_some_mem h))).symm

theorem filterMap_congr_fn {α β : Type} {f g : α → Option β} :
    ∀ {l : List α}, (∀ a ∈ l, f a = g a) → l.filterMap f = l.filterMap g := by
  intro l
  induction l with
  | nil => intro _; rfl
  | cons a rest ih =>
    intro h
    rw [List.filterMap_cons, List.filterMap_cons, h a (by simp),
      ih fun a' ha' => h a' (by simp [ha'])]

theorem setFilesAnalyzed_relationships (p : pkg) (b : Bool) :
    (p.setFilesAnalyzed b).Relationships = p.Relationships := by
  cases p; rfl

theorem addRels_relationships (p : pkg) (rs : List relationship) :
    (p.addRels rs).Relationships = p.Relationships ++ rs := by
  cases p; rfl

/-- The scanner's attachment loop, specified: given that every path in the
(sorted) list resolves in the store to a file named by that path, the loop
emits one `CONTAINS` relationship per path, in path order, with the scanned
package as source. -/
theorem attachRels_spec (p1 : pkg) (store : List (String × file)) :
    ∀ (paths : List String),
      (∀ k ∈ paths, ∃ f, lookupKey k store = some f ∧ f.Name = k) →
      (paths.filterMap fun path => (lookupKey path store).map fun f =>
          relationship.mk (.pk p1) (.fl f) "CONTAINS").map relTargetName = paths ∧
      (paths.filterMap fun path => (lookupKey path store).map fun f =>
          relationship.mk (.pk p1) (.fl f) "CONTAINS").length = paths.length ∧
      ∀ r ∈ paths.filterMap fun path => (lookupKey path store).map fun f =>
          relationship.mk (.pk p1) (.fl f) "CONTAINS",
        r.ty = "CONTAINS" ∧ r.Source = element.pk p1 := by
  intro paths
  induction paths with
  | nil => intro _; simp
  | cons k rest ih =>
    intro h
    obtain ⟨f, hf, hname⟩ := h k (by simp)
    obtain ⟨ih1, ih2, ih3⟩ := ih fun k' hk' => h k' (by simp [hk'])
    rw [List.filterMap_cons, hf]
    refine ⟨?_, ?_, ?_⟩
    · simp only [Option.map_some', List.map_cons, ih1, relTargetName,
        relationship.Target, hname]
    · simp [ih2]
    · intro r hr
      simp only [Option.map_some', List.mem_cons] at hr
      rcases hr with rfl | hr
      · exact ⟨rfl, rfl⟩
      · exact ih3 r hr

/-! ## Claim theorems -/

/-- **C2.**  The verification code computed by `computeVerificationCode` is the
SHA-1 digest of the concatenation of the file digests in sorted order, and it
is invariant under permutation of the digest list (i.e. under file discovery
order). -/
theorem c2_verification_code_canonical :
    (∀ l, computeVerificationCode l = sha1Hex (String.join (sortStrings l))) ∧
    ∀ l₁ l₂, List.Perm l₁ l₂ →
      computeVerificationCode l₁ = computeVerificationCode l₂ := by
  refine ⟨fun l => rfl, fun l₁ l₂ h => ?_⟩
  unfold computeVerificationCode
  rw [sortStrings_perm_eq h]

/-- Witness for C2 at a concrete permutation. -/
theorem c2_verification_code_canonical_witness :
    computeVerificationCode ["bb", "aa"] = computeVerificationCode ["aa", "bb"] :=
  c2_verification_code_canonical.2 ["bb", "aa"] ["aa", "bb"] (by decide)

/-- **C10.**  `GenerateAPKPackage` errors exactly when the package name is
empty; a successfully constructed package has no relationships, concluded
license `NOASSERTION`, and declared license equal to the supplied license when
non-empty and `NOASSERTION` otherwise. -/
theorem c10_generate_apk_package (spec : Spec) :
    ((∃ p, GenerateAPKPackage spec = .ok p) ↔ spec.PackageName ≠ "") ∧
    ∀ p, GenerateAPKPackage spec = .ok p →
      p.Relationships = [] ∧ p.LicenseConcluded = spdx.NOASSERTION ∧
      p.LicenseDeclared =
        if spec.License = "" then spdx.NOASSERTION else spec.License := by
  constructor
  · constructor
    · rintro ⟨p, hp⟩ hname
      simp [GenerateAPKPackage, hname] at hp
    · intro hname
      exact ⟨pkg.mk spec.PackageName spec.PackageVersion spec.Copyright
        (if spec.License ≠ "" then spec.License else spdx.NOASSERTION)
        spdx.NOASSERTION spec.Namespace spec.Arch [] false [],
        by simp only [GenerateAPKPackage, if_neg hname]⟩
  · intro p hp
    by_cases hname : spec.PackageName = ""
    · simp [GenerateAPKPackage, hname] at hp
    · simp only [GenerateAPKPackage, hname, if_false, Except.ok.injEq] at hp
      subst hp
      by_cases hl : spec.License = "" <;>
        simp [hl, pkg.Relationships, pkg.LicenseConcluded, pkg.LicenseDeclared]

/-- Witness for C10 at a concrete spec. -/
theorem c10_generate_apk_package_witness :
    (∃ p, GenerateAPKPackage sampleSpec = .ok p) ∧
    ∀ p, GenerateAPKPackage sampleSpec = .ok p →
      p.Relationships = [] ∧ p.LicenseConcluded = spdx.NOASSERTION := by
  obtain ⟨h1, h2⟩ := c10_generate_apk_package sampleSpec
  exact ⟨h1.mpr (by decide), fun p hp => ⟨(h2 p hp).1, (h2 p hp).2.1⟩⟩

/-- **C4.**  `ParseBuildSBOM` succeeds exactly when the build-environment data
was read and parsed and the apk document has a described root; in particular a
malformed package URL on an upstream package never causes failure — the
success status does not depend on the purl parser at all (second conjunct:
replacing the parser by one rejecting every locator preserves success). -/
theorem c4_merge_error_conditions (purlParse : String → Option String)
    (buildData : Except String spdx.Document) (apkSBOM : spdx.Document) :
    ((∃ d, ParseBuildSBOM purlParse buildData apkSBOM = .ok d) ↔
      ((∃ b, buildData = .ok b) ∧ apkSBOM.DocumentDescribes ≠ [])) ∧
    ((∃ d, ParseBuildSBOM purlParse buildData apkSBOM = .ok d) ↔
      ∃ d, ParseBuildSBOM (fun _ => none) buildData apkSBOM = .ok d) := by
  cases buildData with
  | error e => simp [ParseBuildSBOM]
  | ok b =>
    by_cases h : apkSBOM.DocumentDescribes = [] <;> simp [ParseBuildSBOM, h]

/-- Witness for C4 at concrete inputs. -/
theorem c4_merge_error_conditions_witness :
    ∃ d, ParseBuildSBOM allApkParse (.ok emptyBuildDoc) rootedApkDoc = .ok d :=
  (c4_merge_error_conditions allApkParse (.ok emptyBuildDoc) rootedApkDoc).1.mpr
    ⟨⟨emptyBuildDoc, rfl⟩, by decide⟩

/-- **C5.**  When `SOURCE_DATE_EPOCH` is present and parses as a base-10
64-bit integer, the document's creation timestamp is that value rendered
through the epoch formatter instead of the wall clock; when it is present but
non-numeric, `WriteSBOM` fails with the parse error and no output file comes
into existence. -/
theorem c5_source_date_epoch (toolVersion now : String) (fmtUnix : Int → String)
    (spec : Spec) (doc : bom) (v : String) :
    (∀ sec, parseInt64 v = some sec →
      buildDocumentSPDX toolVersion now (some v) fmtUnix spec doc =
        .ok (buildDoc toolVersion (fmtUnix sec) spec doc) ∧
      (buildDoc toolVersion (fmtUnix sec) spec doc).CreationInfo.Created =
        fmtUnix sec) ∧
    (parseInt64 v = none →
      ∀ (purlParse : String → Option String)
        (buildData : Except String spdx.Document) (createOk encodeOk : Bool),
        WriteSBOM toolVersion now (some v) fmtUnix spec doc purlParse buildData
            createOk encodeOk =
          (.error "building SPDX document: failed to parse SOURCE_DATE_EPOCH",
           FileState.absent)) := by
  constructor
  · intro sec hsec
    exact ⟨by simp [buildDocumentSPDX, hsec], buildDoc_created _ _ _ _⟩
  · intro h purlParse buildData createOk encodeOk
    simp [WriteSBOM, buildDocumentSPDX, h]

/-- Witness for C5: a numeric override is used as the timestamp, a non-numeric
one aborts the write with no file. -/
theorem c5_source_date_epoch_witness :
    (buildDocumentSPDX "v" "t" (some "1234") (fun _ => "T") sampleSpec oneFileBom =
      .ok (buildDoc "v" "T" sampleSpec oneFileBom)) ∧
    WriteSBOM "v" "t" (some "12x") (fun _ => "T") sampleSpec oneFileBom allApkParse
        (.ok emptyBuildDoc) true true =
      (.error "building SPDX document: failed to parse SOURCE_DATE_EPOCH",
       FileState.absent) :=
  ⟨((c5_source_date_epoch "v" "t" (fun _ => "T") sampleSpec oneFileBom "1234").1
      1234 (by decide)).1,
   (c5_source_date_epoch "v" "t" (fun _ => "T") sampleSpec oneFileBom "12x").2
      (by decide) allApkParse (.ok emptyBuildDoc) true true⟩

/-- **C9 (amended).**  `WriteSBOM` succeeds exactly when a complete merged
document has been written; on failure the output file is either absent or —
only in the single case where file creation succeeded and encoding then
failed — left incomplete on disk. -/
theorem c9_amended_write_outcomes (toolVersion now : String) (sde : Option String)
    (fmtUnix : Int → String) (spec : Spec) (doc : bom)
    (purlParse : String → Option String) (buildData : Except String spdx.Document)
    (createOk encodeOk : Bool) (out : Except String Unit × FileState)
    (hout : out = WriteSBOM toolVersion now sde fmtUnix spec doc purlParse
      buildData createOk encodeOk) :
    ((∃ u, out.1 = .ok u) ↔ ∃ d', out.2 = FileState.written d') ∧
    ((∃ e, out.1 = .error e) → out.2 = FileState.absent ∨ out.2 = FileState.incomplete) ∧
    (out.2 = FileState.incomplete → createOk = true ∧ encodeOk = false) := by
  subst hout
  cases hb : buildDocumentSPDX toolVersion now sde fmtUnix spec doc with
  | error e => simp [WriteSBOM, hb]
  | ok spdxDoc =>
    cases hp : ParseBuildSBOM purlParse buildData spdxDoc with
    | error e => simp [WriteSBOM, hb, hp]
    | ok merged => cases createOk <;> cases encodeOk <;> simp [WriteSBOM, hb, hp]

/-- Counterexample for **C9** as stated: an encoding failure after successful
file creation returns an error while an (incomplete) output file exists — the
write is not atomic. -/
theorem c9_counterexample :
    WriteSBOM "v" "t" none (fun _ => "t") sampleSpec oneFileBom allApkParse
        (.ok emptyBuildDoc) true false =
      (.error "encoding spdx sbom", FileState.incomplete) ∧
    FileState.incomplete ≠ FileState.absent := by
  exact ⟨rfl, by decide⟩

/-- Witness for the amended C9 at a concrete failing run. -/
theorem c9_amended_write_outcomes_witness :
    (WriteSBOM "v" "t" none (fun _ => "t") sampleSpec oneFileBom allApkParse
        (.ok emptyBuildDoc) false false).2 = FileState.absent ∨
    (WriteSBOM "v" "t" none (fun _ => "t") sampleSpec oneFileBom allApkParse
        (.ok emptyBuildDoc) false false).2 = FileState.incomplete :=
  (c9_amended_write_outcomes "v" "t" none (fun _ => "t") sampleSpec oneFileBom
      allApkParse (.ok emptyBuildDoc) false false _ rfl).2.1
    ⟨"opening SBOM file for writing", rfl⟩

/-- The inner loop of `ParseBuildSBOM` appends its package once per external
reference passing the qualification test. -/
theorem spliceOne_eq (purlParse : String → Option String) (p : spdx.Package) :
    spliceOne purlParse p =
      (p.ExternalRefs.filter (qualifies purlParse)).map fun _ => p := by
  unfold spliceOne
  suffices h : ∀ (refs : List spdx.ExternalRef) (acc : List spdx.Package),
      refs.foldl (fun acc e =>
        if e.ty == "purl" then
          match purlParse e.Locator with
          | none => acc
          | some t => if t == "oci" then acc else acc ++ [p]
        else acc) acc =
      acc ++ (refs.filter (qualifies purlParse)).map (fun _ => p) by
    simpa using h p.ExternalRefs []
  intro refs
  induction refs with
  | nil => intro acc; simp
  | cons e rest ih =>
    intro acc
    rw [List.foldl_cons, ih]
    by_cases h1 : (e.ty == "purl") = true
    · cases hp : purlParse e.Locator with
      | none =>
        have hq : qualifies purlParse e = false := by simp [qualifies, h1, hp]
        simp [h1, hp, hq, List.filter_cons]
      | some t =>
        by_cases ht : (t == "oci") = true
        · have hq : qualifies purlParse e = false := by simp [qualifies, h1, hp, ht]
          simp [h1, hp, ht, hq, List.filter_cons]
        · have hq : qualifies purlParse e = true := by simp [qualifies, h1, hp, ht]
          simp [h1, hp, ht, hq, List.filter_cons]
    · have hq : qualifies purlParse e = false := by simp [qualifies, h1]
      simp [h1, hq, List.filter_cons]

/-- The outer loop of `ParseBuildSBOM` concatenates the per-package splice
lists. -/
theorem spliceList_eq (purlParse : String → Option String)
    (pkgs : List spdx.Package) :
    spliceList purlParse pkgs =
      pkgs.flatMap fun q =>
        (q.ExternalRefs.filter (qualifies purlParse)).map fun _ => q := by
  unfold spliceList
  suffices h : ∀ (l : List spdx.Package) (acc : List spdx.Package),
      l.foldl (fun acc p => acc ++ spliceOne purlParse p) acc =
      acc ++ l.flatMap (fun q =>
        (q.ExternalRefs.filter (qualifies purlParse)).map fun _ => q) by
    simpa using h pkgs []
  intro l
  induction l with
  | nil => intro acc; simp
  | cons p rest ih =>
    intro acc
    rw [List.foldl_cons, ih]
    simp [spliceOne_eq, List.append_assoc]

/-- A package is spliced (at least once) exactly when it is an upstream
package with at least one qualifying external reference. -/
theorem spliceList_mem (purlParse : String → Option String)
    (pkgs : List spdx.Package) (p : spdx.Package) :
    p ∈ spliceList purlParse pkgs ↔
      p ∈ pkgs ∧ ∃ e ∈ p.ExternalRefs, qualifies purlParse e = true := by
  rw [spliceList_eq]
  simp only [List.mem_flatMap, List.mem_map, List.mem_filter]
  constructor
  · rintro ⟨q, hq, e, ⟨he, hqual⟩, rfl⟩
    exact ⟨hq, e, he, hqual⟩
  · rintro ⟨hp, e, he, hqual⟩
    exact ⟨p, hp, e, ⟨he, hqual⟩, rfl⟩

/-- **C3 (amended).**  `ParseBuildSBOM` splices exactly the upstream packages
carrying at least one qualifying (purl-typed, parseable, non-OCI) external
reference — but once per qualifying reference, not once per package — and it
appends one `BUILD_DEPENDENCY_OF` relationship record to the first described
root per spliced entry (so a package with several qualifying references is
spliced, and linked, several times). -/
theorem c3_amended_splice (purlParse : String → Option String)
    (buildSBOM apkSBOM d : spdx.Document)
    (h : ParseBuildSBOM purlParse (.ok buildSBOM) apkSBOM = .ok d) :
    d.Packages = apkSBOM.Packages ++ spliceList purlParse buildSBOM.Packages ∧
    d.Relationships = apkSBOM.Relationships ++
      (spliceList purlParse buildSBOM.Packages).map (fun p =>
        { Element := p.ID, ty := "BUILD_DEPENDENCY_OF",
          Related := apkSBOM.DocumentDescribes.headD "" }) ∧
    spliceList purlParse buildSBOM.Packages =
      buildSBOM.Packages.flatMap (fun q =>
        (q.ExternalRefs.filter (qualifies purlParse)).map fun _ => q) ∧
    ∀ p, p ∈ spliceList purlParse buildSBOM.Packages ↔
      (p ∈ buildSBOM.Packages ∧
        ∃ e ∈ p.ExternalRefs, qualifies purlParse e = true) := by
  simp only [ParseBuildSBOM] at h
  by_cases hd : apkSBOM.DocumentDescribes = []
  · rw [if_pos hd] at h
    exact absurd h (by simp)
  · rw [if_neg hd] at h
    simp only [Except.ok.injEq] at h
    subst h
    exact ⟨rfl, rfl, spliceList_eq _ _, spliceList_mem _ _⟩

/-- Counterexample for **C3** as stated: an upstream package with two
qualifying purl references is spliced twice, not exactly once. -/
theorem c3_counterexample :
    (ParseBuildSBOM allApkParse (.ok twoPurlBuildDoc) rootedApkDoc).toOption.map
        (fun d => d.Packages.count twoPurlPkg) = some 2 := by
  decide

/-! ## Lemmas about the verification code and its excluded files -/

theorem sha1Bytes_length (msg : List Nat) : (sha1Bytes msg).length = 20 := by
  unfold sha1Bytes
  simp [bigEndian4]

theorem bytesToHex_length (bs : List Nat) : (bytesToHex bs).length = 2 * bs.length := by
  unfold bytesToHex
  show (bs.foldr (fun b acc => hexDigit (b / 16) :: hexDigit (b % 16) :: acc) []).length =
    2 * bs.length
  induction bs with
  | nil => rfl
  | cons b rest ih =>
    simp only [List.foldr_cons, List.length_cons, ih]
    omega

theorem sha1Hex_length (s : String) : (sha1Hex s).length = 40 := by
  unfold sha1Hex
  rw [bytesToHex_length, sha1Bytes_length]

/-- A SHA-1 hex digest is never the empty string, so `computeVerificationCode`
never returns `""` and the verification code is set on every lowered
package. -/
theorem sha1Hex_ne_empty (s : String) : sha1Hex s ≠ "" := fun h => by
  have hl := sha1Hex_length s
  rw [h] at hl
  exact absurd hl (by decide)

theorem computeVerificationCode_ne_empty (l : List String) :
    computeVerificationCode l ≠ "" :=
  sha1Hex_ne_empty _

theorem ite_length_pos {α : Type} (l : List α) :
    (if l.length > 0 then l else []) = l := by
  cases l <;> simp

/-- The verification code of a lowered package record is always present:
its value is the code over the SHA-1 digests of the file targets and its
excluded list holds the ids of the file targets without a SHA-1 digest. -/
theorem lowerPkg_vc (p : pkg) :
    (lowerPkg p).VerificationCode =
      some { Value := computeVerificationCode (vcHashes p.Relationships),
             ExcludedFiles := vcExcluded p.Relationships } := by
  unfold lowerPkg
  simp only [ne_eq, ite_not]
  rw [if_neg (computeVerificationCode_ne_empty _), ite_length_pos]

theorem vcExcluded_mem {rels : List relationship} {r : relationship} {f : file}
    (hr : r ∈ rels) (ht : r.Target = element.fl f)
    (hs : lookupKey "SHA1" f.Checksums = none) : f.ID ∈ vcExcluded rels := by
  unfold vcExcluded
  exact List.mem_filterMap.mpr ⟨r, hr, by rw [ht]; simp [hs]⟩

theorem vcHashes_mem (rels : List relationship) (h : String) :
    h ∈ vcHashes rels ↔
      ∃ r ∈ rels, ∃ f, r.Target = element.fl f ∧
        lookupKey "SHA1" f.Checksums = some h := by
  unfold vcHashes
  rw [List.mem_filterMap]
  constructor
  · rintro ⟨r, hr, hv⟩
    cases ht : r.Target with
    | fl f =>
      rw [ht] at hv
      simp at hv
      exact ⟨r, hr, f, ht, hv⟩
    | pk q =>
      rw [ht] at hv
      simp at hv
  · rintro ⟨r, hr, f, ht, hv⟩
    exact ⟨r, hr, by rw [ht]; simp [hv]⟩

/-- **C1 (amended).**  The package record emitted by `addPackage` (appended
first, before any record from the recursion) always carries a verification
code — `computeVerificationCode` hashes the possibly empty digest
concatenation to a 40-character hex string, never `""`, so the code is present
even when no file target contributes a SHA-1 digest; every file target lacking
a SHA-1 digest is listed in the excluded-files list, and the hashed list holds
exactly the SHA-1 digests of the file targets that have one. -/
theorem c1_amended_verification_code (doc : spdx.Document) (p : pkg) :
    ((addPackage doc p).Packages.drop doc.Packages.length).head? =
      some (lowerPkg p) ∧
    (lowerPkg p).VerificationCode =
      some { Value := computeVerificationCode (vcHashes p.Relationships),
             ExcludedFiles := vcExcluded p.Relationships } ∧
    (lowerPkg p).VerificationCode ≠ none ∧
    (∀ r ∈ p.Relationships, ∀ f, r.Target = element.fl f →
      lookupKey "SHA1" f.Checksums = none →
      f.ID ∈ vcExcluded p.Relationships) ∧
    ∀ h, h ∈ vcHashes p.Relationships ↔
      ∃ r ∈ p.Relationships, ∃ f, r.Target = element.fl f ∧
        lookupKey "SHA1" f.Checksums = some h := by
  refine ⟨?_, lowerPkg_vc p, by rw [lowerPkg_vc p]; simp, ?_, vcHashes_mem _⟩
  · obtain ⟨ps, hps⟩ := addPackage_packages doc p
    rw [hps, List.drop_left]
    rfl
  · intro r hr f ht hs
    exact vcExcluded_mem hr ht hs

set_option maxRecDepth 1000000 in
set_option maxHeartbeats 1000000 in
/-- Counterexample for **C1** as stated: a package with no file targets at all
is still emitted with a verification code (the SHA-1 of the empty
concatenation). -/
theorem c1_counterexample :
    (addPackage docInit noRelPkg).Packages.map (fun q => q.VerificationCode) =
      [some { Value := "da39a3ee5e6b4b0d3255bfef95601890afd80709",
              ExcludedFiles := [] }] := by
  decide

/-- Witness for the amended C1: a file target without a SHA-1 digest lands in
the excluded list and the code is still present. -/
theorem c1_amended_verification_code_witness :
    noSha1File.ID ∈ vcExcluded exclPkg.Relationships ∧
    (lowerPkg exclPkg).VerificationCode ≠ none := by
  have h := c1_amended_verification_code docInit exclPkg
  exact ⟨h.2.2.2.1 (relationship.mk (.pk noRelPkg) (.fl noSha1File) "CONTAINS")
      (List.mem_cons_self _ _) noSha1File rfl rfl,
    h.2.2.1⟩

/-! ## Lemmas about relationship triple deduplication -/

/-- When `sbomHasRelationship` reports the triple absent, it is absent from
the document's triple list. -/
theorem sbomHasRelationship_false {doc : spdx.Document} {s t : element}
    {ty : String} (h : ¬sbomHasRelationship doc (.mk s t ty) = true) :
    (s.ID, ty, t.ID) ∉ docTriples doc := by
  intro hmem
  apply h
  obtain ⟨sr, hsr, htr⟩ := List.mem_map.mp hmem
  unfold relTriple at htr
  apply List.any_eq_true.mpr
  refine ⟨sr, hsr, ?_⟩
  simp only [relationship.Source, relationship.Target, relationship.ty]
  have h1 : sr.Element = s.ID := congrArg (fun x => x.1) htr
  have h2 : sr.ty = ty := congrArg (fun x => x.2.1) htr
  have h3 : sr.Related = t.ID := congrArg (fun x => x.2.2) htr
  simp [h1, h2, h3]

/-- Lowering a file with no relationships leaves the document's relationship
records untouched (`addFile` never appends relationship records). -/
theorem addFile_relationships_of_empty (doc : spdx.Document) (f : file)
    (h : f.Relationships = []) :
    (addFile doc f).Relationships = doc.Relationships := by
  match f with
  | .mk n cs rels =>
    simp only [file.Relationships] at h
    subst h
    rw [addFile, addFileRels]

theorem nodup_append_singleton {α : Type} {l : List α} {a : α}
    (h1 : l.Nodup) (h2 : a ∉ l) : (l ++ [a]).Nodup := by
  simp [List.nodup_append, h1, h2]

/-- The suppression step of `addPkgRels`: a relationship whose triple is
already recorded in the document is skipped without appending anything. -/
theorem addPkgRels_skip (doc : spdx.Document) (s t : element) (ty : String)
    (rest : List relationship)
    (h : sbomHasRelationship doc (.mk s t ty) = true) :
    addPkgRels doc (.mk s t ty :: rest) = addPkgRels doc rest := by
  cases t with
  | fl f => simp [addPkgRels, h]
  | pk q => simp [addPkgRels, h]

/-- The relationship loop of `addPackage` preserves duplicate-freedom of the
document's triples when every relationship target is a file without
relationships of its own (the scanner's shape). -/
theorem addPkgRels_nodup_triples (rels : List relationship) :
    ∀ (doc : spdx.Document), (docTriples doc).Nodup → shapeRels rels = true →
      (docTriples (addPkgRels doc rels)).Nodup := by
  induction rels with
  | nil =>
    intro doc hnd _
    rw [addPkgRels]
    exact hnd
  | cons r rest ih =>
    intro doc hnd hs
    match r with
    | .mk s t ty =>
      cases t with
      | pk q => simp [shapeRels] at hs
      | fl f =>
        rw [shapeRels] at hs
        simp only [Bool.and_eq_true, List.isEmpty_iff] at hs
        obtain ⟨hf, hrest⟩ := hs
        by_cases h : sbomHasRelationship doc (.mk s (.fl f) ty) = true
        · rw [show addPkgRels doc (.mk s (.fl f) ty :: rest) = addPkgRels doc rest by
            simp [addPkgRels, h]]
          exact ih doc hnd hrest
        · rw [show addPkgRels doc (.mk s (.fl f) ty :: rest) =
              addPkgRels { addFile doc f with
                Relationships := (addFile doc f).Relationships ++
                  [{ Element := s.ID, ty := ty, Related := (element.fl f).ID }] }
                rest by
            simp [addPkgRels, h]]
          apply ih _ _ hrest
          show (List.map relTriple ((addFile doc f).Relationships ++
            [{ Element := s.ID, ty := ty, Related := (element.fl f).ID }])).Nodup
          rw [addFile_relationships_of_empty doc f hf, List.map_append]
          exact nodup_append_singleton hnd (sbomHasRelationship_false h)

/-- `addPackage` preserves duplicate-freedom of the triples for
scanner-shaped packages. -/
theorem addPackage_nodup_triples (doc : spdx.Document) (p : pkg)
    (hnd : (docTriples doc).Nodup) (hs : scannerShaped p = true) :
    (docTriples (addPackage doc p)).Nodup := by
  match p with
  | .mk n v c ld lc ns a cs fa rels =>
    rw [addPackage]
    exact addPkgRels_nodup_triples rels _ hnd hs

/-- The package lowering loop of the builder preserves duplicate-freedom for
scanner-shaped packages. -/
theorem foldPkgs_nodup (l : List pkg) :
    ∀ (d : spdx.Document), (docTriples d).Nodup → l.all scannerShaped = true →
      (docTriples (l.foldl (fun d p =>
        addPackage { d with DocumentDescribes := d.DocumentDescribes ++ [p.ID] } p)
        d)).Nodup := by
  induction l with
  | nil => intro d hnd _; exact hnd
  | cons p rest ih =>
    intro d hnd hl
    simp only [List.all_cons, Bool.and_eq_true] at hl
    rw [List.foldl_cons]
    exact ih _ (addPackage_nodup_triples _ p hnd hl.1) hl.2

/-- The file lowering loop of the builder preserves duplicate-freedom when
the files have no relationships. -/
theorem foldFiles_nodup (l : List file) :
    ∀ (d : spdx.Document), (docTriples d).Nodup →
      l.all (fun f => f.Relationships.isEmpty) = true →
      (docTriples (l.foldl (fun d f =>
        addFile { d with DocumentDescribes := d.DocumentDescribes ++ [f.ID] } f)
        d)).Nodup := by
  induction l with
  | nil => intro d hnd _; exact hnd
  | cons f rest ih =>
    intro d hnd hl
    simp only [List.all_cons, Bool.and_eq_true, List.isEmpty_iff] at hl
    rw [List.foldl_cons]
    apply ih _ _ (by simp [hl.2])
    show (List.map relTriple (addFile _ f).Relationships).Nodup
    rw [addFile_relationships_of_empty _ f hl.1]
    exact hnd

/-- **C6 (amended).**  Before appending any relationship record, `addPkgRels`
checks the already-emitted records and suppresses a relationship whose triple
is already present (second conjunct); consequently the built document's
triples are pairwise distinct whenever every relationship target is a file
without relationships of its own, as the scanner produces (first conjunct).
(For adversarially nested package targets a triple emitted inside the
recursion can duplicate the one appended after it — see the
counterexample.) -/
theorem c6_amended_no_duplicate_triples (tv now : String) (sde : Option String)
    (fmtUnix : Int → String) (spec : Spec) (b : bom) (d : spdx.Document)
    (hp : b.Packages.all scannerShaped = true)
    (hf : b.Files.all (fun f => f.Relationships.isEmpty) = true)
    (hb : buildDocumentSPDX tv now sde fmtUnix spec b = .ok d) :
    (docTriples d).Nodup ∧
    ∀ (doc' : spdx.Document) (s t : element) (ty : String)
      (rest : List relationship),
      sbomHasRelationship doc' (.mk s t ty) = true →
      addPkgRels doc' (.mk s t ty :: rest) = addPkgRels doc' rest := by
  constructor
  · have hd : ∃ created, d = buildDoc tv created spec b := by
      cases sde with
      | none =>
        simp only [buildDocumentSPDX, Except.ok.injEq] at hb
        exact ⟨now, hb.symm⟩
      | some v =>
        cases hpi : parseInt64 v with
        | none => simp [buildDocumentSPDX, hpi] at hb
        | some sec =>
          simp only [buildDocumentSPDX, hpi, Except.ok.injEq] at hb
          exact ⟨fmtUnix sec, hb.symm⟩
    obtain ⟨created, rfl⟩ := hd
    simp only [buildDoc]
    apply foldFiles_nodup _ _ _ hf
    apply foldPkgs_nodup _ _ _ hp
    simp [docTriples]
  · exact fun doc' s t ty rest h => addPkgRels_skip doc' s t ty rest h

set_option maxRecDepth 1000000 in
set_option maxHeartbeats 2000000 in
/-- Counterexample for **C6** as stated: lowering a package whose relationship
targets a nested package carrying the same (source id, kind, target id) triple
emits that triple twice — the dedup check runs before the recursion into the
target, which appends the same triple first. -/
theorem c6_counterexample :
    (buildDocumentSPDX "v" "t" none (fun _ => "t") sampleSpec
        { Packages := [dupTriplePkg], Files := [] }).toOption.map
      (fun d => d.Relationships) =
      some [{ Element := "SPDXRef-Package-s-1", ty := "CONTAINS",
              Related := "SPDXRef-Package-q-1" },
            { Element := "SPDXRef-Package-s-1", ty := "CONTAINS",
              Related := "SPDXRef-Package-q-1" }] := by
  decide

/-- Witness for the amended C6 on a concrete scanner-shaped bom. -/
theorem c6_amended_no_duplicate_triples_witness :
    (docTriples (buildDoc "v" "t" sampleSpec
      { Packages := [exclPkg], Files := [sampleFile] })).Nodup :=
  (c6_amended_no_duplicate_triples "v" "t" none (fun _ => "t") sampleSpec
    { Packages := [exclPkg], Files := [sampleFile] } _
    (by decide) (by decide) rfl).1

/-- **C8.**  After scanning, the package's relationship list holds exactly one
`CONTAINS` relationship per file stored in the keyed store, with the scanned
package as source, in lexicographically sorted path order; the result is
invariant under permutation of the store, i.e. under the completion order of
the concurrent digesting units. -/
theorem c8_scan_sorted_order (p : pkg) (store : List (String × file))
    (h0 : p.Relationships = [])
    (hnd : (store.map Prod.fst).Nodup)
    (hnm : ∀ kf ∈ store, (Prod.snd kf).Name = Prod.fst kf) :
    (∀ store', List.Perm store store' →
      scanFilesAttach p store = scanFilesAttach p store') ∧
    (scanFilesAttach p store).Relationships.length = store.length ∧
    (∀ r ∈ (scanFilesAttach p store).Relationships,
      r.ty = "CONTAINS" ∧ r.Source = element.pk (p.setFilesAnalyzed true)) ∧
    (scanFilesAttach p store).Relationships.map relTargetName =
      sortStrings (store.map Prod.fst) ∧
    ∀ k f, (k, f) ∈ store →
      relationship.mk (element.pk (p.setFilesAnalyzed true)) (element.fl f)
          "CONTAINS" ∈
        (scanFilesAttach p store).Relationships := by
  have hpaths : ∀ k ∈ sortStrings (store.map Prod.fst),
      ∃ f, lookupKey k store = some f ∧ f.Name = k := by
    intro k hk
    have hk' : k ∈ store.map Prod.fst := (sortStrings_perm _).mem_iff.mp hk
    obtain ⟨a, hmem, hfst⟩ := List.mem_map.mp hk'
    obtain ⟨k1, f⟩ := a
    subst hfst
    exact ⟨f, mem_lookupKey_of_nodup hnd hmem, hnm (k1, f) hmem⟩
  obtain ⟨ha, hb, hc⟩ := attachRels_spec (p.setFilesAnalyzed true) store _ hpaths
  have hrels : (scanFilesAttach p store).Relationships =
      (sortStrings (store.map Prod.fst)).filterMap fun path =>
        (lookupKey path store).map fun f =>
          relationship.mk (.pk (p.setFilesAnalyzed true)) (.fl f) "CONTAINS" := by
    unfold scanFilesAttach
    rw [addRels_relationships, setFilesAnalyzed_relationships, h0]
    simp
  refine ⟨?_, ?_, ?_, ?_, ?_⟩
  · intro store' hp
    have hl : sortStrings (store'.map Prod.fst) = sortStrings (store.map Prod.fst) :=
      (sortStrings_perm_eq (hp.map Prod.fst)).symm
    have hfm : ∀ paths : List String,
        (paths.filterMap fun path => (lookupKey path store).map fun f =>
          relationship.mk (.pk (p.setFilesAnalyzed true)) (.fl f) "CONTAINS") =
        paths.filterMap fun path => (lookupKey path store').map fun f =>
          relationship.mk (.pk (p.setFilesAnalyzed true)) (.fl f) "CONTAINS" :=
      fun paths => filterMap_congr_fn fun a _ => by rw [lookupKey_perm a hnd hp]
    simp only [scanFilesAttach]
    rw [hl, ← hfm]
  · rw [hrels, hb, (sortStrings_perm _).length_eq, List.length_map]
  · rw [hrels]
    exact hc
  · rw [hrels]
    exact ha
  · intro k f hkf
    rw [hrels]
    apply List.mem_filterMap.mpr
    refine ⟨k, (sortStrings_perm _).mem_iff.mpr (List.mem_map.mpr ⟨(k, f), hkf, rfl⟩), ?_⟩
    rw [mem_lookupKey_of_nodup hnd hkf]
    rfl

/-- Witness for C8: a two-file store scanned in either completion order gives
the same package, with two relationships. -/
theorem c8_scan_sorted_order_witness :
    scanFilesAttach noRelPkg [("/a", fileA), ("/b", fileB)] =
      scanFilesAttach noRelPkg [("/b", fileB), ("/a", fileA)] ∧
    (scanFilesAttach noRelPkg [("/a", fileA), ("/b", fileB)]).Relationships.length =
      2 := by
  have h := c8_scan_sorted_order noRelPkg [("/a", fileA), ("/b", fileB)] rfl
    (by decide) (by decide)
  exact ⟨h.1 _ (List.Perm.swap _ _ _), h.2.1⟩

/-- Witness for the amended C3 at a concrete merge. -/
theorem c3_amended_splice_witness :
    twoPurlMergedDoc.Packages =
      rootedApkDoc.Packages ++ spliceList allApkParse twoPurlBuildDoc.Packages ∧
    (twoPurlPkg ∈ spliceList allApkParse twoPurlBuildDoc.Packages ↔
      (twoPurlPkg ∈ twoPurlBuildDoc.Packages ∧
        ∃ e ∈ twoPurlPkg.ExternalRefs, qualifies allApkParse e = true)) := by
  have h := c3_amended_splice allApkParse twoPurlBuildDoc rootedApkDoc
    twoPurlMergedDoc (by rw [ParseBuildSBOM.eq_def]; rfl)
  exact ⟨h.1, h.2.2.2 twoPurlPkg⟩

/-! ## Well-formedness of the entity graph and absence of dangling references -/

theorem wfE_pk_eq (p : pkg) : wfE (.pk p) = wfP p := by simp [wfE]

theorem wfE_fl_eq (f : file) : wfE (.fl f) = wfF f := by simp [wfE]

theorem wfP_src (p : pkg) : wfP p = wfSrcRels p.ID p.Relationships := by
  match p with
  | .mk n v c ld lc ns a cs fa rels =>
    simp [wfP, pkg.ID, pkg.Name, pkg.Version, pkg.Relationships]

theorem wfF_tgt (f : file) : wfF f = wfTgtRels f.Relationships := by
  match f with
  | .mk n cs rels => simp [wfF, file.Relationships]

theorem wfSrcRels_iff (pid : String) :
    ∀ rels : List relationship, wfSrcRels pid rels = true ↔
      ∀ r ∈ rels, r.Source.ID = pid ∧ wfE r.Target = true := by
  intro rels
  induction rels with
  | nil => simp [wfSrcRels]
  | cons r rest ih =>
    match r with
    | .mk s t ty =>
      simp only [wfSrcRels, Bool.and_eq_true, beq_iff_eq, List.mem_cons, ih]
      constructor
      · rintro ⟨⟨h1, h2⟩, h3⟩ r' hr'
        rcases hr' with rfl | hr'
        · exact ⟨h1, h2⟩
        · exact h3 r' hr'
      · intro h
        exact ⟨⟨(h _ (Or.inl rfl)).1, (h _ (Or.inl rfl)).2⟩,
          fun r' hr' => h r' (Or.inr hr')⟩

theorem wfTgtRels_iff :
    ∀ rels : List relationship, wfTgtRels rels = true ↔
      ∀ r ∈ rels, wfE r.Target = true := by
  intro rels
  induction rels with
  | nil => simp [wfTgtRels]
  | cons r rest ih =>
    match r with
    | .mk s t ty =>
      simp only [wfTgtRels, Bool.and_eq_true, List.mem_cons, ih]
      constructor
      · rintro ⟨h1, h2⟩ r' hr'
        rcases hr' with rfl | hr'
        · exact h1
        · exact h2 r' hr'
      · intro h
        exact ⟨h _ (Or.inl rfl), fun r' hr' => h r' (Or.inr hr')⟩

theorem docIds_mono_pkg (doc : spdx.Document) (x : spdx.Package) (i : String)
    (h : i ∈ docIds doc) :
    i ∈ docIds { doc with Packages := doc.Packages ++ [x] } := by
  simp only [docIds, List.map_append, List.mem_append] at h ⊢
  tauto

theorem docIds_mono_fl (doc : spdx.Document) (x : spdx.File) (i : String)
    (h : i ∈ docIds doc) :
    i ∈ docIds { doc with Files := doc.Files ++ [x] } := by
  simp only [docIds, List.map_append, List.mem_append] at h ⊢
  tauto

theorem docIds_self_pkg (doc : spdx.Document) (x : spdx.Package) :
    x.ID ∈ docIds { doc with Packages := doc.Packages ++ [x] } := by
  simp [docIds]

theorem docIds_self_fl (doc : spdx.Document) (x : spdx.File) :
    x.ID ∈ docIds { doc with Files := doc.Files ++ [x] } := by
  simp [docIds]

mutual
/-- Lowering a well-formed package into a document whose relationships do not
dangle and whose described roots dangle at worst on the package's own id
yields a document with no dangling references. -/
theorem addPackage_ok (doc : spdx.Document) (p : pkg)
    (hrels : ∀ r ∈ doc.Relationships,
      r.Element ∈ docIds doc ∧ r.Related ∈ docIds doc)
    (hdesc : ∀ i ∈ doc.DocumentDescribes, i ∈ docIds doc ∨ i = p.ID)
    (hw : wfP p = true) : docOK (addPackage doc p) := by
  match p with
  | .mk n v c ld lc ns a cs fa rels =>
    rw [addPackage]
    apply addPkgRels_ok
    · constructor
      · intro r hr
        have h := hrels r hr
        exact ⟨docIds_mono_pkg doc _ _ h.1, docIds_mono_pkg doc _ _ h.2⟩
      · intro i hi
        rcases hdesc i hi with h | h
        · exact docIds_mono_pkg doc _ _ h
        · rw [h]
          exact docIds_self_pkg doc _
    · intro r hr
      rw [wfP_src] at hw
      have h := (wfSrcRels_iff _ _).mp hw r hr
      refine ⟨?_, h.2⟩
      rw [h.1]
      exact docIds_self_pkg doc _

/-- The relationship loop preserves the no-dangling invariant when every
relationship source id is already a record of the document and every target is
well-formed. -/
theorem addPkgRels_ok (doc : spdx.Document) (rels : List relationship)
    (hd : docOK doc)
    (hr : ∀ r ∈ rels, r.Source.ID ∈ docIds doc ∧ wfE r.Target = true) :
    docOK (addPkgRels doc rels) := by
  match rels with
  | [] =>
    rw [addPkgRels]
    exact hd
  | .mk s (.fl f) ty :: rest =>
    by_cases h : sbomHasRelationship doc (.mk s (.fl f) ty) = true
    · rw [show addPkgRels doc (.mk s (.fl f) ty :: rest) = addPkgRels doc rest by
        simp [addPkgRels, h]]
      exact addPkgRels_ok doc rest hd fun r hrm => hr r (List.mem_cons_of_mem _ hrm)
    · rw [show addPkgRels doc (.mk s (.fl f) ty :: rest) =
          addPkgRels { addFile doc f with
            Relationships := (addFile doc f).Relationships ++
              [{ Element := s.ID, ty := ty, Related := (element.fl f).ID }] } rest by
        simp [addPkgRels, h]]
      have hhead := hr _ (List.mem_cons_self _ _)
      have hsub := docExtends_ids (addFile_extends doc f)
      have hd2 : docOK (addFile doc f) :=
        addFile_ok doc f hd.1 (fun i hi => Or.inl (hd.2 i hi))
          (by rw [← wfE_fl_eq]; exact hhead.2)
      apply addPkgRels_ok
      · constructor
        · intro r hrm
          rcases List.mem_append.mp hrm with hold | hnew
          · exact hd2.1 r hold
          · simp only [List.mem_singleton] at hnew
            subst hnew
            exact ⟨hsub _ hhead.1, addFile_id_mem doc f⟩
        · intro i hi
          exact hd2.2 i hi
      · intro r hrm
        have h2 := hr r (List.mem_cons_of_mem _ hrm)
        exact ⟨hsub _ h2.1, h2.2⟩
  | .mk s (.pk q) ty :: rest =>
    by_cases h : sbomHasRelationship doc (.mk s (.pk q) ty) = true
    · rw [show addPkgRels doc (.mk s (.pk q) ty :: rest) = addPkgRels doc rest by
        simp [addPkgRels, h]]
      exact addPkgRels_ok doc rest hd fun r hrm => hr r (List.mem_cons_of_mem _ hrm)
    · rw [show addPkgRels doc (.mk s (.pk q) ty :: rest) =
          addPkgRels { addPackage doc q with
            Relationships := (addPackage doc q).Relationships ++
              [{ Element := s.ID, ty := ty, Related := (element.pk q).ID }] } rest by
        simp [addPkgRels, h]]
      have hhead := hr _ (List.mem_cons_self _ _)
      have hsub := docExtends_ids (addPackage_extends doc q)
      have hd2 : docOK (addPackage doc q) :=
        addPackage_ok doc q hd.1 (fun i hi => Or.inl (hd.2 i hi))
          (by rw [← wfE_pk_eq]; exact hhead.2)
      apply addPkgRels_ok
      · constructor
        · intro r hrm
          rcases List.mem_append.mp hrm with hold | hnew
          · exact hd2.1 r hold
          · simp only [List.mem_singleton] at hnew
            subst hnew
            exact ⟨hsub _ hhead.1, addPackage_id_mem doc q⟩
        · intro i hi
          exact hd2.2 i hi
      · intro r hrm
        have h2 := hr r (List.mem_cons_of_mem _ hrm)
        exact ⟨hsub _ h2.1, h2.2⟩

/-- Lowering a well-formed file preserves the no-dangling invariant. -/
theorem addFile_ok (doc : spdx.Document) (f : file)
    (hrels : ∀ r ∈ doc.Relationships,
      r.Element ∈ docIds doc ∧ r.Related ∈ docIds doc)
    (hdesc : ∀ i ∈ doc.DocumentDescribes, i ∈ docIds doc ∨ i = f.ID)
    (hw : wfF f = true) : docOK (addFile doc f) := by
  match f with
  | .mk n cs rels =>
    rw [addFile]
    apply addFileRels_ok
    · constructor
      · intro r hr
        have h := hrels r hr
        exact ⟨docIds_mono_fl doc _ _ h.1, docIds_mono_fl doc _ _ h.2⟩
      · intro i hi
        rcases hdesc i hi with h | h
        · exact docIds_mono_fl doc _ _ h
        · rw [h]
          exact docIds_self_fl doc _
    · rw [wfF_tgt] at hw
      exact (wfTgtRels_iff _).mp hw

/-- The file relationship loop preserves the no-dangling invariant (it appends
no relationship records). -/
theorem addFileRels_ok (doc : spdx.Document) (rels : List relationship)
    (hd : docOK doc) (hr : ∀ r ∈ rels, wfE r.Target = true) :
    docOK (addFileRels doc rels) := by
  match rels with
  | [] =>
    rw [addFileRels]
    exact hd
  | .mk s (.fl f) ty :: rest =>
    by_cases h : sbomHasRelationship doc (.mk s (.fl f) ty) = true
    · rw [show addFileRels doc (.mk s (.fl f) ty :: rest) = addFileRels doc rest by
        simp [addFileRels, h]]
      exact addFileRels_ok doc rest hd fun r hrm => hr r (List.mem_cons_of_mem _ hrm)
    · rw [show addFileRels doc (.mk s (.fl f) ty :: rest) =
          addFileRels (addFile doc f) rest by simp [addFileRels, h]]
      apply addFileRels_ok
      · exact addFile_ok doc f hd.1 (fun i hi => Or.inl (hd.2 i hi))
          (by rw [← wfE_fl_eq]; exact hr _ (List.mem_cons_self _ _))
      · exact fun r hrm => hr r (List.mem_cons_of_mem _ hrm)
  | .mk s (.pk q) ty :: rest =>
    by_cases h : sbomHasRelationship doc (.mk s (.pk q) ty) = true
    · rw [show addFileRels doc (.mk s (.pk q) ty :: rest) = addFileRels doc rest by
        simp [addFileRels, h]]
      exact addFileRels_ok doc rest hd fun r hrm => hr r (List.mem_cons_of_mem _ hrm)
    · rw [show addFileRels doc (.mk s (.pk q) ty :: rest) =
          addFileRels (addPackage doc q) rest by simp [addFileRels, h]]
      apply addFileRels_ok
      · exact addPackage_ok doc q hd.1 (fun i hi => Or.inl (hd.2 i hi))
          (by rw [← wfE_pk_eq]; exact hr _ (List.mem_cons_self _ _))
      · exact fun r hrm => hr r (List.mem_cons_of_mem _ hrm)
end

/-- The package lowering loop of the builder preserves the no-dangling
invariant for well-formed packages (each root is described just before its
record is appended). -/
theorem foldPkgs_ok (l : List pkg) :
    ∀ d : spdx.Document, docOK d → l.all wfP = true →
      docOK (l.foldl (fun d p =>
        addPackage { d with DocumentDescribes := d.DocumentDescribes ++ [p.ID] } p)
        d) := by
  induction l with
  | nil => exact fun d hd _ => hd
  | cons p rest ih =>
    intro d hd hl
    simp only [List.all_cons, Bool.and_eq_true] at hl
    rw [List.foldl_cons]
    apply ih _ _ hl.2
    apply addPackage_ok _ p
    · intro r hr
      exact hd.1 r hr
    · intro i hi
      rcases List.mem_append.mp hi with h | h
      · exact Or.inl (hd.2 i h)
      · simp only [List.mem_singleton] at h
        exact Or.inr h
    · exact hl.1

/-- The file lowering loop of the builder preserves the no-dangling
invariant for well-formed files. -/
theorem foldFiles_ok (l : List file) :
    ∀ d : spdx.Document, docOK d → l.all wfF = true →
      docOK (l.foldl (fun d f =>
        addFile { d with DocumentDescribes := d.DocumentDescribes ++ [f.ID] } f)
        d) := by
  induction l with
  | nil => exact fun d hd _ => hd
  | cons f rest ih =>
    intro d hd hl
    simp only [List.all_cons, Bool.and_eq_true] at hl
    rw [List.foldl_cons]
    apply ih _ _ hl.2
    apply addFile_ok _ f
    · intro r hr
      exact hd.1 r hr
    · intro i hi
      rcases List.mem_append.mp hi with h | h
      · exact Or.inl (hd.2 i h)
      · simp only [List.mem_singleton] at h
        exact Or.inr h
    · exact hl.1

/-- The document built from a well-formed bom has no dangling references. -/
theorem buildDoc_ok (toolVersion created : String) (spec : Spec) (b : bom)
    (hp : b.Packages.all wfP = true) (hf : b.Files.all wfF = true) :
    docOK (buildDoc toolVersion created spec b) := by
  simp only [buildDoc]
  apply foldFiles_ok _ _ _ hf
  apply foldPkgs_ok _ _ _ hp
  exact ⟨by simp, by simp⟩

/-- A successful `buildDocumentSPDX` run yields the built document for some
creation timestamp. -/
theorem buildDocumentSPDX_ok_eq {toolVersion now : String} {sde : Option String}
    {fmtUnix : Int → String} {spec : Spec} {b : bom} {d : spdx.Document}
    (hb : buildDocumentSPDX toolVersion now sde fmtUnix spec b = .ok d) :
    ∃ created, d = buildDoc toolVersion created spec b := by
  cases sde with
  | none =>
    simp only [buildDocumentSPDX, Except.ok.injEq] at hb
    exact ⟨now, hb.symm⟩
  | some v =>
    cases hpi : parseInt64 v with
    | none => simp [buildDocumentSPDX, hpi] at hb
    | some sec =>
      simp only [buildDocumentSPDX, hpi, Except.ok.injEq] at hb
      exact ⟨fmtUnix sec, hb.symm⟩

theorem docIds_merge_mono (doc : spdx.Document) (xs : List spdx.Package)
    (rs : List spdx.Relationship) (i : String) (h : i ∈ docIds doc) :
    i ∈ docIds { doc with Packages := doc.Packages ++ xs, Relationships := rs } := by
  simp only [docIds, List.map_append, List.mem_append] at h ⊢
  tauto

theorem docIds_merge_self (doc : spdx.Document) (xs : List spdx.Package)
    (rs : List spdx.Relationship) (x : spdx.Package) (hx : x ∈ xs) :
    x.ID ∈ docIds { doc with Packages := doc.Packages ++ xs, Relationships := rs } := by
  simp only [docIds, List.map_append, List.mem_append]
  exact Or.inl (Or.inr (List.mem_map.mpr ⟨x, hx, rfl⟩))

/-- Merging the build-environment packages preserves the no-dangling
invariant: spliced records are appended before their relationships, and the
related id is the (existing) first described root. -/
theorem ParseBuildSBOM_ok (purlParse : String → Option String)
    (buildData : Except String spdx.Document) (apk d' : spdx.Document)
    (hok : docOK apk) (h : ParseBuildSBOM purlParse buildData apk = .ok d') :
    docOK d' := by
  cases buildData with
  | error e => simp [ParseBuildSBOM] at h
  | ok bs =>
    simp only [ParseBuildSBOM] at h
    by_cases hd : apk.DocumentDescribes = []
    · rw [if_pos hd] at h
      exact absurd h (by simp)
    · rw [if_neg hd] at h
      simp only [Except.ok.injEq] at h
      subst h
      have hhead : apk.DocumentDescribes.headD "" ∈ apk.DocumentDescribes := by
        cases hl : apk.DocumentDescribes with
        | nil => exact absurd hl hd
        | cons a as => simp [hl]
      constructor
      · intro r hr
        rcases List.mem_append.mp hr with hold | hnew
        · have hh := hok.1 r hold
          exact ⟨docIds_merge_mono apk _ _ _ hh.1, docIds_merge_mono apk _ _ _ hh.2⟩
        · obtain ⟨p, hp, rfl⟩ := List.mem_map.mp hnew
          exact ⟨docIds_merge_self apk _ _ p hp,
            docIds_merge_mono apk _ _ _ (hok.2 _ hhead)⟩
      · intro i hi
        exact docIds_merge_mono apk _ _ _ (hok.2 i hi)

/-- **C7.**  In the final document obtained by building the entity graph
(`buildDocumentSPDX`) and merging the build-environment SBOM
(`ParseBuildSBOM`), every id used by a relationship record (element and
related) and every described root id names a package or file record present in
the same document.  The bom is required to be well-formed in the shape the
assembler and scanner produce: each package's relationships carry the package
itself (by id) as source, with well-formed targets. -/
theorem c7_no_dangling_references (toolVersion now : String) (sde : Option String)
    (fmtUnix : Int → String) (spec : Spec) (b : bom)
    (purlParse : String → Option String) (buildData : Except String spdx.Document)
    (d d' : spdx.Document)
    (hp : b.Packages.all wfP = true) (hf : b.Files.all wfF = true)
    (hb : buildDocumentSPDX toolVersion now sde fmtUnix spec b = .ok d)
    (hm : ParseBuildSBOM purlParse buildData d = .ok d') :
    (∀ r ∈ d'.Relationships, r.Element ∈ docIds d' ∧ r.Related ∈ docIds d') ∧
    ∀ i ∈ d'.DocumentDescribes, i ∈ docIds d' := by
  obtain ⟨created, rfl⟩ := buildDocumentSPDX_ok_eq hb
  exact ParseBuildSBOM_ok purlParse buildData _ d'
    (buildDoc_ok toolVersion created spec b hp hf) hm

/-- Witness for C7 on a concrete one-file bom merged with an empty
build-environment document. -/
theorem c7_no_dangling_references_witness :
    (∀ r ∈ mergedOneFileDoc.Relationships,
      r.Element ∈ docIds mergedOneFileDoc ∧ r.Related ∈ docIds mergedOneFileDoc) ∧
    ∀ i ∈ mergedOneFileDoc.DocumentDescribes, i ∈ docIds mergedOneFileDoc := by
  have hm : ParseBuildSBOM allApkParse (.ok emptyBuildDoc) builtOneFileDoc =
      .ok mergedOneFileDoc := by
    simp only [ParseBuildSBOM]
    rw [if_neg (by decide)]
    rfl
  exact c7_no_dangling_references "v" "t" none (fun _ => "t") sampleSpec oneFileBom
    allApkParse (.ok emptyBuildDoc) builtOneFileDoc mergedOneFileDoc
    (by decide) (by decide) rfl hm

end Melange
